import Mathlib

/-!
# MIDI input queue of the WinMME input device

A shallow embedding of `WinMMEMidiInputDevice` from
`libs/backends/portaudio/winmmemidi_input_device.cc`: the producer side
(`enqueue_midi_msg`, `handle_sysex_msg`) and the consumer side
(`dequeue_midi_event`) of the byte ring that carries time-stamped MIDI events.

Bytes, cursors, sizes and timestamps are natural numbers; where the source
narrows a value to 32 or 64 bits the reduction is written out.
-/

set_option linter.unusedVariables false

namespace ARDOUR

/-! ## Constants -/

/-- The constant `MIDI_BUFFER_SIZE`, the number of bytes asked for the ring. -/
def MIDI_BUFFER_SIZE : Nat := 32768

/-- The constant `SYSEX_BUFFER_SIZE`, the size of the sysex slot. -/
def SYSEX_BUFFER_SIZE : Nat := 32768

/-! ## Event header -/

/-- Modelled from the spec: `struct MidiEventHeader` is declared in a header
file that is not part of the sources at hand. The spec gives its fields as a
64-bit timestamp in microseconds followed by a 32-bit byte length. -/
structure MidiEventHeader where
  time : Nat
  size : Nat
deriving DecidableEq, Repr

/-- Modelled from the spec: `sizeof(MidiEventHeader)`, 8 bytes of timestamp
and 4 bytes of length, 12 bytes as in the spec's scenario. -/
def sizeof_MidiEventHeader : Nat := 12

/-- The constructor `MidiEventHeader (t, s)`: both arguments are narrowed to
the width of their field. -/
def MidiEventHeader.ctor (t s : Nat) : MidiEventHeader :=
  ⟨t % 2 ^ 64, s % 2 ^ 32⟩

/-- The `n` low bytes of `v`, least significant first. -/
def le_bytes : Nat → Nat → List Nat
  | 0, _ => []
  | n + 1, v => (v % 256) :: le_bytes n (v / 256)

/-- The number whose bytes, least significant first, are the given list. -/
def le_value : List Nat → Nat
  | [] => 0
  | b :: bs => b + 256 * le_value bs

/-- Modelled from the spec: the object representation of a header, what
`(uint8_t*)&h` points at. The spec only says that the encoding is fixed-width
and reversible; fields are laid out in declaration order, least significant
byte first. -/
def header_bytes (h : MidiEventHeader) : List Nat :=
  le_bytes 8 h.time ++ le_bytes 4 h.size

/-- The header whose object representation is the given 12 bytes (the inverse
of `header_bytes`); absent bytes read as zero. -/
def header_of_bytes (bs : List Nat) : MidiEventHeader :=
  ⟨le_value (bs.take 8), le_value ((bs.drop 8).take 4)⟩

/-- The call `memcpy (dst + off, src, n)` on byte lists: `n` bytes of `dst`
from offset `off` on are replaced by the first `n` bytes of `src`. -/
def memcpy_at (dst : List Nat) (off : Nat) (src : List Nat) (n : Nat) : List Nat :=
  dst.take off ++ src.take n ++ dst.drop (off + n)

/-! ## Byte ring -/

/-- Modelled from the spec: `RingBuffer<uint8_t>` (its header file is not part
of the sources at hand). A fixed-capacity byte array with a read cursor owned
by the consumer and a write cursor owned by the producer. -/
structure RingBuffer where
  size : Nat
  buf : List Nat
  read_idx : Nat
  write_idx : Nat
deriving DecidableEq, Repr

/-- Modelled from the spec: the two spans returned by `get_read_vector`,
`buf[0]`, `len[0]`, `buf[1]`, `len[1]`. The second span is absent (a null
pointer, `none`) when the unread region does not wrap. -/
structure rw_vector where
  buf0 : List Nat
  len0 : Nat
  buf1 : Option (List Nat)
  len1 : Nat
deriving DecidableEq, Repr

namespace RingBuffer

/-- Modelled from the spec: a new ring of capacity `sz`, both cursors at the
start. -/
def create (sz : Nat) : RingBuffer :=
  ⟨sz, List.replicate sz 0, 0, 0⟩

/-- Modelled from the spec: `read_space ()`, the number of unread bytes, the
distance from the read cursor to the write cursor around the ring. -/
def read_space (rb : RingBuffer) : Nat :=
  (rb.write_idx + rb.size - rb.read_idx) % rb.size

/-- Modelled from the spec: `write_space ()`; one slot stays reserved, so that
`write_space + read_space = capacity - 1`. -/
def write_space (rb : RingBuffer) : Nat :=
  rb.size - 1 - rb.read_space

/-- The `cnt` bytes that follow the read cursor, wrapping at capacity. -/
def peek (rb : RingBuffer) (cnt : Nat) : List Nat :=
  (List.range cnt).map fun i => rb.buf.getD ((rb.read_idx + i) % rb.size) 0

/-- The unread region of the ring as one byte list. -/
def contents (rb : RingBuffer) : List Nat :=
  rb.peek rb.read_space

/-- Modelled from the spec: `increment_read_idx (cnt)` advances the read
cursor by `cnt` without copying. -/
def increment_read_idx (rb : RingBuffer) (cnt : Nat) : RingBuffer :=
  ⟨rb.size, rb.buf, (rb.read_idx + cnt) % rb.size, rb.write_idx⟩

/-- Modelled from the spec: `read (dest, cnt)` copies out bytes from the read
cursor, wrapping, and advances the read cursor; it returns the bytes copied,
whose number is the function's return value and is short when fewer than `cnt`
bytes are unread. -/
def read (rb : RingBuffer) (cnt : Nat) : RingBuffer × List Nat :=
  let to_read := min cnt rb.read_space
  (rb.increment_read_idx to_read, rb.peek to_read)

/-- One byte stored at the write cursor, the cursor advanced and wrapped. -/
def put (rb : RingBuffer) (b : Nat) : RingBuffer :=
  ⟨rb.size, rb.buf.set rb.write_idx b, rb.read_idx, (rb.write_idx + 1) % rb.size⟩

/-- Modelled from the spec: `write (src, cnt)` copies `cnt` bytes of `src`
starting at the write cursor, wrapping at capacity, and advances the write
cursor. The spec requires `cnt <= write_space`; for a larger `cnt` only the
bytes that fit are copied, the way a short `read` is specified. The second
component is the number of bytes written. -/
def write (rb : RingBuffer) (src : List Nat) (cnt : Nat) : RingBuffer × Nat :=
  let to_write := min cnt rb.write_space
  ((src.take to_write).foldl put rb, to_write)

/-- Modelled from the spec: `get_read_vector` returns up to two contiguous
spans that cover the unread region, the second present only when the region
wraps past the end of the array. -/
def get_read_vector (rb : RingBuffer) : rw_vector :=
  let free_cnt := rb.read_space
  let cnt2 := rb.read_idx + free_cnt
  if cnt2 > rb.size then
    ⟨(rb.buf.drop rb.read_idx).take (rb.size - rb.read_idx), rb.size - rb.read_idx,
      some (rb.buf.take (cnt2 - rb.size)), cnt2 - rb.size⟩
  else
    ⟨(rb.buf.drop rb.read_idx).take free_cnt, free_cnt, none, 0⟩

/-- The representation invariant of a ring: a non-empty array of the stated
capacity, a capacity that fits the 32-bit counters, and both cursors inside
the array. -/
def WF (rb : RingBuffer) : Prop :=
  0 < rb.size ∧ rb.size < 2 ^ 32 ∧ rb.buf.length = rb.size ∧
    rb.read_idx < rb.size ∧ rb.write_idx < rb.size

instance (rb : RingBuffer) : Decidable rb.WF := by
  unfold WF; infer_instance

end RingBuffer

/-! ## Consumer side -/

/-- Lines 262-274 of `dequeue_midi_event` on a read vector: the header `h`
starts as `(0, 0)` and is overwritten from segment 0 alone when that holds a
whole header, else from segment 0 and then segment 1. -/
def header_from_vector (v : rw_vector) : MidiEventHeader :=
  let h0 := header_bytes ⟨0, 0⟩
  let hb :=
    if v.len0 ≥ sizeof_MidiEventHeader then
      memcpy_at h0 0 v.buf0 sizeof_MidiEventHeader
    else
      let h1 := if v.len0 > 0 then memcpy_at h0 0 v.buf0 v.len0 else h0
      memcpy_at h1 v.len0 (v.buf1.getD []) (sizeof_MidiEventHeader - v.len0)
  header_of_bytes hb

/-- The assertion of line 270, `vector.buf[1] || vector.len[0] == sizeof`,
which is evaluated only on the two-segment branch. -/
def vector_assert (v : rw_vector) : Bool :=
  if v.len0 ≥ sizeof_MidiEventHeader then true
  else v.buf1.isSome || v.len0 == sizeof_MidiEventHeader

/-- The header that `dequeue_midi_event` peeks from the ring. -/
def peek_header (rb : RingBuffer) : MidiEventHeader :=
  header_from_vector rb.get_read_vector

/-- The exit of `dequeue_midi_event` that a call took (a label of the model,
not a value the function returns). -/
inductive DequeuePath
  | queue_empty
  | early
  | too_large
  | garbled
  | found
deriving DecidableEq, Repr

/-- What a call of `dequeue_midi_event` leaves behind: the return value, the
ring, the three caller-side outputs `timestamp`, `midi_data`, `data_size`,
the exit taken, whether every assertion met on the way held, and whether the
diagnostic for a late event was printed. The other fields describe the run in
which assertions do not abort. -/
structure DequeueResult where
  ret : Bool
  rb : RingBuffer
  timestamp : Nat
  midi_data : List Nat
  data_size : Nat
  path : DequeuePath
  asserts_hold : Bool
  late : Bool
deriving DecidableEq, Repr

/-- The method `WinMMEMidiInputDevice::dequeue_midi_event`. The arguments
`timestamp`, `midi_data` and `data_size` are the caller's values on entry. -/
def dequeue_midi_event (rb : RingBuffer) (timestamp_start timestamp_end : Nat)
    (timestamp : Nat) (midi_data : List Nat) (data_size : Nat) : DequeueResult :=
  let read_space := rb.read_space % 2 ^ 32
  if read_space ≤ sizeof_MidiEventHeader then
    ⟨false, rb, timestamp, midi_data, data_size, .queue_empty, true, false⟩
  else
    let vector := rb.get_read_vector
    let h := header_from_vector vector
    let a1 := vector_assert vector
    if h.time ≥ timestamp_end then
      ⟨false, rb, timestamp, midi_data, data_size, .early, a1, false⟩
    else
      let late := decide (h.time < timestamp_start)
      let rb1 := rb.increment_read_idx sizeof_MidiEventHeader
      let a2 := a1 && decide (h.size > 0)
      if h.size > data_size then
        ⟨false, rb1.increment_read_idx h.size, timestamp, midi_data, data_size,
          .too_large, a2, late⟩
      else
        let r := rb1.read h.size
        let out := memcpy_at midi_data 0 r.2 r.2.length
        if r.2.length ≠ h.size then
          ⟨false, r.1, timestamp, out, data_size, .garbled, a2, late⟩
        else
          ⟨true, r.1, h.time, out, h.size, .found, a2, late⟩

/-! ## Producer side -/

/-- The local `total_size` of `enqueue_midi_msg`, a `uint32_t`. -/
def total_size (data_size : Nat) : Nat :=
  (sizeof_MidiEventHeader + data_size) % 2 ^ 32

/-- The return value of `enqueue_midi_msg` and the ring it leaves. -/
structure EnqueueResult where
  ret : Bool
  rb : RingBuffer
deriving DecidableEq, Repr

/-- The method `WinMMEMidiInputDevice::enqueue_midi_msg`. `timestamp` is the
driver-supplied argument, which the body never uses; `now` is the value that
`utils::get_microseconds ()` returns when the function reads the clock. -/
def enqueue_midi_msg (rb : RingBuffer) (midi_data : List Nat) (data_size : Nat)
    (timestamp : Nat) (now : Nat) : EnqueueResult :=
  if data_size = 0 then
    ⟨false, rb⟩
  else if rb.write_space < total_size data_size then
    ⟨false, rb⟩
  else
    let ts := now
    let h := MidiEventHeader.ctor ts data_size
    let rb1 := (rb.write (header_bytes h) sizeof_MidiEventHeader).1
    let rb2 := (rb1.write midi_data data_size).1
    ⟨true, rb2⟩

/-- The Win32 structure `MIDIHDR`, as far as `handle_sysex_msg` reads it: the
buffer at `lpData` and the count `dwBytesRecorded`. -/
structure MIDIHDR where
  lpData : List Nat
  dwBytesRecorded : Nat
deriving DecidableEq, Repr

/-- The device as the sysex handler sees it: the ring `m_midi_buffer`, the
number of calls `midiInAddBuffer (m_handle, &m_sysex_header, ...)` made so far
and the arguments `(data, size)` of the calls of `enqueue_midi_msg` made so far
(the last two are a record kept by the model). -/
structure WinMMEMidiInputDevice where
  m_midi_buffer : RingBuffer
  add_buffer_calls : Nat
  enqueue_calls : List (List Nat × Nat)
deriving DecidableEq, Repr

/-- The method `WinMMEMidiInputDevice::handle_sysex_msg`. Its whole body stands
between `#ifdef ENABLE_SYSEX` and `#endif`; the flag is the first argument.
`now` is the clock value that `enqueue_midi_msg` reads if it gets that far. -/
def handle_sysex_msg (ENABLE_SYSEX : Bool) (dev : WinMMEMidiInputDevice)
    (midi_header : MIDIHDR) (timestamp : Nat) (now : Nat) : WinMMEMidiInputDevice :=
  if ENABLE_SYSEX then
    let byte_count := midi_header.dwBytesRecorded
    if byte_count = 0 then
      dev
    else
      let data := midi_header.lpData
      let dev1 : WinMMEMidiInputDevice :=
        if data.getD 0 0 ≠ 0xf0 ∨ data.getD (byte_count - 1) 0 ≠ 0xf7 then
          dev
        else
          ⟨(enqueue_midi_msg dev.m_midi_buffer data byte_count timestamp now).rb,
            dev.add_buffer_calls, dev.enqueue_calls ++ [(data, byte_count)]⟩
      ⟨dev1.m_midi_buffer, dev1.add_buffer_calls + 1, dev1.enqueue_calls⟩
  else
    dev

/-! ## Queued events and call sequences -/

/-- A MIDI event as the queue carries it: a timestamp and the payload. -/
structure MidiEvent where
  time : Nat
  data : List Nat
deriving DecidableEq, Repr

/-- An event that a header can describe: a 64-bit timestamp and a payload of
at least one byte whose length fits the 32-bit size field. -/
def MidiEvent.valid (e : MidiEvent) : Prop :=
  e.time < 2 ^ 64 ∧ 0 < e.data.length ∧ e.data.length < 2 ^ 32

instance (e : MidiEvent) : Decidable e.valid := by
  unfold MidiEvent.valid; infer_instance

/-- The bytes of one queued event: the header, then the payload. -/
def frame (e : MidiEvent) : List Nat :=
  header_bytes ⟨e.time, e.data.length⟩ ++ e.data

/-- The bytes of a sequence of queued events, one frame after the other. -/
def frames : List MidiEvent → List Nat
  | [] => []
  | e :: es => frame e ++ frames es

/-- The arguments of one call of `enqueue_midi_msg`: the payload (its length
is passed as `data_size`), the driver's timestamp, and the clock value the
call would read. -/
structure EnqueueCall where
  midi_data : List Nat
  timestamp : Nat
  now : Nat
deriving DecidableEq, Repr

/-- The arguments of one call of `dequeue_midi_event`. -/
structure DequeueCall where
  timestamp_start : Nat
  timestamp_end : Nat
  timestamp : Nat
  midi_data : List Nat
  data_size : Nat
deriving DecidableEq, Repr

/-- One call of `enqueue_midi_msg` with the arguments of `c`. -/
def EnqueueCall.apply (c : EnqueueCall) (rb : RingBuffer) : EnqueueResult :=
  enqueue_midi_msg rb c.midi_data c.midi_data.length c.timestamp c.now

/-- One call of `dequeue_midi_event` with the arguments of `c`. -/
def DequeueCall.apply (c : DequeueCall) (rb : RingBuffer) : DequeueResult :=
  dequeue_midi_event rb c.timestamp_start c.timestamp_end c.timestamp c.midi_data c.data_size

/-- Every payload of the call sequence is non-empty and fits the write space
that the ring has when its call is made. -/
def all_fit : RingBuffer → List EnqueueCall → Prop
  | _, [] => True
  | rb, c :: cs =>
    (0 < c.midi_data.length ∧ sizeof_MidiEventHeader + c.midi_data.length ≤ rb.write_space) ∧
      all_fit (c.apply rb).rb cs

instance all_fit_decidable : (rb : RingBuffer) → (cs : List EnqueueCall) → Decidable (all_fit rb cs)
  | _, [] => isTrue trivial
  | rb, c :: cs =>
    have := all_fit_decidable (c.apply rb).rb cs
    by unfold all_fit; infer_instance

/-- A call of either method. -/
inductive Call
  | enqueue (c : EnqueueCall)
  | dequeue (c : DequeueCall)
deriving DecidableEq, Repr

/-- A run of calls on one ring, with a record of what went in and out: the
events accepted by `enqueue_midi_msg` (clock value read and payload), the
events returned by `dequeue_midi_event` with return value `true` (timestamp
and bytes handed to the caller), and the number of events skipped as too
large. -/
structure Session where
  rb : RingBuffer
  enqueued : List MidiEvent
  dequeued : List MidiEvent
  skipped : Nat
deriving DecidableEq, Repr

/-- One call made on a session. -/
def Session.step (s : Session) : Call → Session
  | .enqueue c =>
    let r := c.apply s.rb
    if r.ret then ⟨r.rb, s.enqueued ++ [⟨c.now, c.midi_data⟩], s.dequeued, s.skipped⟩
    else ⟨r.rb, s.enqueued, s.dequeued, s.skipped⟩
  | .dequeue c =>
    let r := c.apply s.rb
    if r.ret then
      ⟨r.rb, s.enqueued, s.dequeued ++ [⟨r.timestamp, r.midi_data.take r.data_size⟩], s.skipped⟩
    else if r.path = .too_large then ⟨r.rb, s.enqueued, s.dequeued, s.skipped + 1⟩
    else ⟨r.rb, s.enqueued, s.dequeued, s.skipped⟩

/-- A sequence of calls made on a session, in order. -/
def Session.run (s : Session) (cs : List Call) : Session :=
  cs.foldl Session.step s

/-- A session on a new ring of capacity `sz`. -/
def Session.start (sz : Nat) : Session :=
  ⟨RingBuffer.create sz, [], [], 0⟩

/-- A call whose arguments are within the ranges of the 32-bit build that the
12-byte header belongs to: for a call of `enqueue_midi_msg`, the payload is a
buffer with `sizeof(MidiEventHeader) + data_size < 2^32` (any buffer that
exists in a 32-bit address space, and any payload that fits a ring) and the
clock value is a 64-bit number. Calls of `dequeue_midi_event` are not
restricted. -/
def Call.in_range : Call → Prop
  | .enqueue e => sizeof_MidiEventHeader + e.midi_data.length < 2 ^ 32 ∧ e.now < 2 ^ 64
  | .dequeue _ => True

instance (c : Call) : Decidable c.in_range := by
  cases c <;> unfold Call.in_range <;> infer_instance

/-- Every call of the sequence is in range. -/
def calls_in_range (cs : List Call) : Prop :=
  ∀ c ∈ cs, c.in_range

instance (cs : List Call) : Decidable (calls_in_range cs) := by
  unfold calls_in_range; infer_instance

/-- The invariant of a session: the ring is well formed, the events accepted
so far split into those already passed by the consumer and those pending, the
unread bytes are the frames of the pending events in order, the events
returned are a subsequence of those passed, and every passed event was either
returned or skipped. -/
def Session.Inv (s : Session) : Prop :=
  s.rb.WF ∧ ∃ consumed pending, s.enqueued = consumed ++ pending ∧
    s.rb.contents = frames pending ∧ s.dequeued.Sublist consumed ∧
    consumed.length = s.dequeued.length + s.skipped ∧ ∀ e ∈ s.enqueued, e.valid

/-- The delivered buffer is a well-formed sysex message: at least one byte
recorded, the first byte `0xF0` and the last recorded byte `0xF7`. -/
def sysex_well_formed (midi_header : MIDIHDR) : Prop :=
  0 < midi_header.dwBytesRecorded ∧ midi_header.lpData.getD 0 0 = 0xf0 ∧
    midi_header.lpData.getD (midi_header.dwBytesRecorded - 1) 0 = 0xf7

instance (m : MIDIHDR) : Decidable (sysex_well_formed m) := by
  unfold sysex_well_formed; infer_instance

/-! ## Concrete rings and devices -/

/-- A device with an empty ring of 64 bytes and no calls recorded. -/
def fresh_device : WinMMEMidiInputDevice :=
  ⟨RingBuffer.create 64, 0, []⟩

/-- A ring of 64 bytes that holds one three-byte Note-On enqueued when the
clock read `now`. -/
def note_ring (now : Nat) : RingBuffer :=
  (enqueue_midi_msg (RingBuffer.create 64) [0x90, 60, 100] 3 0 now).rb

/-- A ring of 64 bytes that holds a five-byte event enqueued at clock value
1000 and then a three-byte Note-On enqueued at 2000. -/
def two_event_ring : RingBuffer :=
  (enqueue_midi_msg (enqueue_midi_msg (RingBuffer.create 64) [0xf0, 1, 2, 3, 0xf7] 5 0 1000).rb
    [0x90, 60, 100] 3 0 2000).rb

/-- A ring of 64 bytes with 30 bytes of write space left: one event with a
payload of 21 bytes is queued. -/
def crowded_ring : RingBuffer :=
  (enqueue_midi_msg (RingBuffer.create 64) (List.replicate 21 0x55) 21 0 1000).rb

/-- A ring of 32 bytes in which the header of the one queued event straddles
the end of the array: an event with a payload of 9 bytes was enqueued and
dequeued, which left both cursors at 21, and then a three-byte Note-On was
enqueued at clock value 1000. -/
def wrapped_ring : RingBuffer :=
  (enqueue_midi_msg
    (dequeue_midi_event
      (enqueue_midi_msg (RingBuffer.create 32) (List.replicate 9 0x55) 9 0 1).rb
      0 10 0 (List.replicate 16 0) 16).rb
    [0x90, 60, 100] 3 0 1000).rb

/-! ## States and call sequences for the later claims -/

/-- The ring between the two writes of `enqueue_midi_msg`: the header has been
written (line 329) and the payload has not (line 330). -/
def enqueue_header_written (rb : RingBuffer) (data_size now : Nat) : RingBuffer :=
  (rb.write (header_bytes (MidiEventHeader.ctor now data_size)) sizeof_MidiEventHeader).1

/-- The ring left by calls of `dequeue_midi_event` made one after the other. -/
def dequeue_ring (rb : RingBuffer) (cs : List DequeueCall) : RingBuffer :=
  cs.foldl (fun r c => (c.apply r).rb) rb

/-- A ring of 64 bytes whose unread region is out of frame: a header that
announces five payload bytes, stamped 1000, followed by two unread bytes. -/
def garbled_ring : RingBuffer :=
  ⟨64, header_bytes ⟨1000, 5⟩ ++ [0x90, 60] ++ List.replicate 50 0, 0, 14⟩

theorem le_value_le_bytes (n v : Nat) : le_value (le_bytes n v) = v % 256 ^ n := by
  induction n generalizing v with
  | zero => simp [le_bytes, le_value, Nat.mod_one]
  | succ n ih =>
    simp only [le_bytes, le_value, ih]
    rw [Nat.pow_succ', Nat.mod_mul]

theorem le_bytes_length (n v : Nat) : (le_bytes n v).length = n := by
  induction n generalizing v with
  | zero => rfl
  | succ n ih => simp [le_bytes, ih]

theorem header_bytes_length (h : MidiEventHeader) :
    (header_bytes h).length = sizeof_MidiEventHeader := by
  simp [header_bytes, le_bytes_length, sizeof_MidiEventHeader]

theorem header_of_bytes_header_bytes (h : MidiEventHeader) (rest : List Nat) :
    header_of_bytes (header_bytes h ++ rest) = ⟨h.time % 2 ^ 64, h.size % 2 ^ 32⟩ := by
  have h8 : (le_bytes 8 h.time).length = 8 := le_bytes_length _ _
  have h4 : (le_bytes 4 h.size).length = 4 := le_bytes_length _ _
  simp only [header_of_bytes, header_bytes, List.append_assoc]
  rw [List.take_left' h8, List.drop_left' h8, List.take_left' h4]
  simp [le_value_le_bytes]

theorem wrap_ge (a n : Nat) (h1 : n ≤ a) (h2 : a < 2 * n) : a % n = a - n := by
  rw [Nat.mod_eq_sub_mod h1, Nat.mod_eq_of_lt (by omega)]

namespace RingBuffer

theorem read_space_eq (rb : RingBuffer) (h : rb.WF) :
    rb.read_space = if rb.read_idx ≤ rb.write_idx then rb.write_idx - rb.read_idx
      else rb.write_idx + rb.size - rb.read_idx := by
  obtain ⟨h0, _, _, hr, hw⟩ := h
  unfold read_space
  split
  · rw [wrap_ge _ _ (by omega) (by omega)]; omega
  · rw [Nat.mod_eq_of_lt (by omega)]

theorem read_space_lt (rb : RingBuffer) (h : rb.WF) : rb.read_space < rb.size :=
  Nat.mod_lt _ h.1

theorem peek_length (rb : RingBuffer) (n : Nat) : (rb.peek n).length = n := by
  simp [peek]

theorem contents_length (rb : RingBuffer) : rb.contents.length = rb.read_space := by
  simp [contents, peek_length]

theorem peek_add (rb : RingBuffer) (m n : Nat) :
    rb.peek (m + n) = rb.peek m ++ (rb.increment_read_idx m).peek n := by
  simp only [peek, increment_read_idx, List.range_add, List.map_append, List.map_map]
  congr 1
  apply List.map_congr_left
  intro i _
  simp only [Function.comp, Nat.mod_add_mod, Nat.add_assoc]

theorem peek_take (rb : RingBuffer) (m n : Nat) (h : m ≤ n) :
    (rb.peek n).take m = rb.peek m := by
  obtain ⟨k, rfl⟩ := Nat.exists_eq_add_of_le h
  rw [peek_add, List.take_left' (peek_length _ _)]

theorem peek_drop (rb : RingBuffer) (m n : Nat) (h : m ≤ n) :
    (rb.peek n).drop m = (rb.increment_read_idx m).peek (n - m) := by
  obtain ⟨k, rfl⟩ := Nat.exists_eq_add_of_le h
  rw [peek_add, List.drop_left' (peek_length _ _)]
  simp

theorem increment_read_idx_WF (rb : RingBuffer) (h : rb.WF) (m : Nat) :
    (rb.increment_read_idx m).WF := by
  obtain ⟨h0, h1, h2, hr, hw⟩ := h
  exact ⟨h0, h1, h2, Nat.mod_lt _ h0, hw⟩

theorem increment_read_idx_read_space (rb : RingBuffer) (h : rb.WF) (m : Nat)
    (hm : m ≤ rb.read_space) :
    (rb.increment_read_idx m).read_space = rb.read_space - m := by
  have h' := increment_read_idx_WF rb h m
  rw [read_space_eq _ h'] 
  rw [read_space_eq _ h] at hm ⊢
  obtain ⟨h0, h1, h2, hr, hw⟩ := h
  simp only [increment_read_idx]
  rcases Nat.lt_or_ge (rb.read_idx + m) rb.size with hlt | hge
  · rw [Nat.mod_eq_of_lt hlt]
    split_ifs at hm ⊢ <;> omega
  · rw [wrap_ge _ _ hge (by split_ifs at hm <;> omega)]
    split_ifs at hm ⊢ <;> omega

theorem increment_read_idx_contents (rb : RingBuffer) (h : rb.WF) (m : Nat)
    (hm : m ≤ rb.read_space) :
    (rb.increment_read_idx m).contents = rb.contents.drop m := by
  simp only [contents]
  rw [peek_drop _ _ _ hm, increment_read_idx_read_space rb h m hm]

theorem put_WF (rb : RingBuffer) (h : rb.WF) (b : Nat) : (rb.put b).WF := by
  obtain ⟨h0, h1, h2, hr, hw⟩ := h
  refine ⟨h0, h1, ?_, hr, Nat.mod_lt _ h0⟩
  simp [put, h2]

theorem put_read_space (rb : RingBuffer) (h : rb.WF) (b : Nat) (hs : 0 < rb.write_space) :
    (rb.put b).read_space = rb.read_space + 1 := by
  have h' := put_WF rb h b
  unfold write_space at hs
  rw [read_space_eq _ h']
  rw [read_space_eq _ h] at hs ⊢
  obtain ⟨h0, h1, h2, hr, hw⟩ := h
  simp only [put]
  rcases Nat.lt_or_ge (rb.write_idx + 1) rb.size with hlt | hge
  · rw [Nat.mod_eq_of_lt hlt]
    split_ifs at hs ⊢ <;> omega
  · rw [wrap_ge _ _ hge (by omega)]
    split_ifs at hs ⊢ <;> omega

theorem put_peek (rb : RingBuffer) (h : rb.WF) (b : Nat) (n : Nat) (hn : n ≤ rb.read_space) :
    (rb.put b).peek n = rb.peek n := by
  rw [read_space_eq _ h] at hn
  obtain ⟨h0, h1, h2, hr, hw⟩ := h
  simp only [peek, put]
  apply List.map_congr_left
  intro i hi
  rw [List.mem_range] at hi
  have hne : rb.write_idx ≠ (rb.read_idx + i) % rb.size := by
    rcases Nat.lt_or_ge (rb.read_idx + i) rb.size with hlt | hge
    · rw [Nat.mod_eq_of_lt hlt]
      split_ifs at hn <;> omega
    · rw [wrap_ge _ _ hge (by split_ifs at hn <;> omega)]
      split_ifs at hn <;> omega
  simp [List.getD_eq_getElem?_getD, List.getElem?_set_ne hne]

theorem put_peek_last (rb : RingBuffer) (h : rb.WF) (b : Nat) :
    (rb.put b).peek (rb.read_space + 1) = rb.peek rb.read_space ++ [b] := by
  rw [peek, List.range_succ, List.map_append, ← peek, put_peek rb h b _ (Nat.le_refl _)]
  congr 1
  have hw : (rb.read_idx + rb.read_space) % rb.size = rb.write_idx := by
    rw [read_space_eq _ h]
    obtain ⟨h0, h1, h2, hr, hw⟩ := h
    split_ifs
    · rw [Nat.mod_eq_of_lt (by omega)]; omega
    · rw [wrap_ge _ _ (by omega) (by omega)]; omega
  obtain ⟨h0, h1, h2, hr, hw'⟩ := h
  simp [put, hw, List.getD_eq_getElem?_getD, List.getElem?_set_self, h2, hw']

theorem put_contents (rb : RingBuffer) (h : rb.WF) (b : Nat) (hs : 0 < rb.write_space) :
    (rb.put b).contents = rb.contents ++ [b] := by
  simp only [contents]
  rw [put_read_space rb h b hs, put_peek_last rb h b]

theorem put_write_space (rb : RingBuffer) (h : rb.WF) (b : Nat) (hs : 0 < rb.write_space) :
    (rb.put b).write_space = rb.write_space - 1 := by
  have e := put_read_space rb h b hs
  have e2 : (rb.put b).size = rb.size := rfl
  unfold write_space at hs ⊢
  rw [e, e2]
  omega

theorem foldl_put (src : List Nat) (rb : RingBuffer) (h : rb.WF)
    (hs : src.length ≤ rb.write_space) :
    (src.foldl put rb).WF ∧ (src.foldl put rb).contents = rb.contents ++ src ∧
    (src.foldl put rb).write_space = rb.write_space - src.length ∧
    (src.foldl put rb).size = rb.size ∧ (src.foldl put rb).read_idx = rb.read_idx := by
  induction src generalizing rb with
  | nil => simp [h]
  | cons b bs ih =>
    simp only [List.length_cons] at hs
    have hpos : 0 < rb.write_space := by omega
    have hws := put_write_space rb h b hpos
    obtain ⟨i1, i2, i3, i4, i5⟩ := ih (rb.put b) (put_WF rb h b) (by omega)
    refine ⟨i1, ?_, ?_, ?_, ?_⟩
    · simp only [List.foldl_cons, i2, put_contents rb h b hpos, List.append_assoc,
        List.singleton_append]
    · simp only [List.foldl_cons, i3, hws, List.length_cons]; omega
    · simp only [List.foldl_cons, i4]; rfl
    · simp only [List.foldl_cons, i5]; rfl

theorem write_spec (rb : RingBuffer) (h : rb.WF) (src : List Nat) (cnt : Nat)
    (hc : cnt ≤ src.length) (hs : cnt ≤ rb.write_space) :
    (rb.write src cnt).1.WF ∧ (rb.write src cnt).1.contents = rb.contents ++ src.take cnt ∧
    (rb.write src cnt).1.write_space = rb.write_space - cnt ∧
    (rb.write src cnt).1.size = rb.size ∧ (rb.write src cnt).1.read_idx = rb.read_idx ∧
    (rb.write src cnt).2 = cnt := by
  have hmin : min cnt rb.write_space = cnt := Nat.min_eq_left hs
  have hl : (src.take cnt).length = cnt := by simp [List.length_take, hc]
  obtain ⟨i1, i2, i3, i4, i5⟩ := foldl_put (src.take cnt) rb h (by omega)
  simp only [write, hmin]
  rw [hl] at i3
  exact ⟨i1, i2, i3, i4, i5, trivial⟩

theorem peek_eq_take_drop (rb : RingBuffer) (n : Nat) (hl : rb.buf.length = rb.size)
    (hn : rb.read_idx + n ≤ rb.size) :
    rb.peek n = (rb.buf.drop rb.read_idx).take n := by
  apply List.ext_getElem
  · simp [peek, List.length_take, List.length_drop]; omega
  · intro i h1 h2
    simp only [peek_length] at h1
    have : (rb.read_idx + i) % rb.size = rb.read_idx + i := Nat.mod_eq_of_lt (by omega)
    have hlt : rb.read_idx + i < rb.buf.length := by omega
    simp [peek, this, List.getD_eq_getElem?_getD, List.getElem?_eq_getElem hlt]

theorem get_read_vector_spec (rb : RingBuffer) (h : rb.WF) :
    rb.get_read_vector.buf0 ++ rb.get_read_vector.buf1.getD [] = rb.contents ∧
    rb.get_read_vector.len0 = rb.get_read_vector.buf0.length ∧
    (rb.get_read_vector.buf1 = none → rb.get_read_vector.len0 = rb.read_space) := by
  have hrs := read_space_eq rb h
  obtain ⟨h0, h1, h2, hr, hw⟩ := h
  unfold get_read_vector
  simp only
  split_ifs with hc
  · refine ⟨?_, ?_, ?_⟩
    · simp only [Option.getD_some, contents]
      have e : rb.read_space = (rb.size - rb.read_idx) + (rb.read_idx + rb.read_space - rb.size) := by
        omega
      conv_rhs => rw [e, peek_add]
      congr 1
      · rw [peek_eq_take_drop rb _ h2 (by omega)]
      · have hz : (rb.increment_read_idx (rb.size - rb.read_idx)).read_idx = 0 := by
          simp only [increment_read_idx]
          rw [show rb.read_idx + (rb.size - rb.read_idx) = rb.size by omega, Nat.mod_self]
        rw [peek_eq_take_drop _ _ (by simpa [increment_read_idx] using h2)
          (by rw [hz]; simp only [increment_read_idx]; split_ifs at hrs <;> omega), hz]
        simp [increment_read_idx]
    · simp [List.length_take, List.length_drop, h2]
    · simp
  · refine ⟨?_, ?_, ?_⟩
    · simp only [Option.getD_none, List.append_nil, contents]
      rw [peek_eq_take_drop rb _ h2 (by omega)]
    · simp [List.length_take, List.length_drop, h2]; omega
    · simp

end RingBuffer

/-! ## Lemmas on the two methods -/

theorem memcpy_whole (h0 src : List Nat) (n : Nat) (hn : h0.length = n) :
    memcpy_at h0 0 src n = src.take n := by
  simp [memcpy_at, ← hn]

theorem header_from_vector_eq (v : rw_vector) (hl : v.len0 = v.buf0.length) :
    header_from_vector v =
      header_of_bytes ((v.buf0 ++ v.buf1.getD []).take sizeof_MidiEventHeader) := by
  have h0l : (header_bytes ⟨0, 0⟩).length = sizeof_MidiEventHeader := header_bytes_length _
  unfold header_from_vector
  simp only
  split_ifs with hc hpos
  · rw [memcpy_whole _ _ _ h0l, List.take_append_of_le_length (by omega)]
  · congr 1
    simp only [memcpy_at, List.take_zero, List.nil_append, Nat.zero_add, hl,
      List.take_length, List.take_append_eq_append_take, List.length_append, List.length_take]
    have e1 : v.buf0.length + (sizeof_MidiEventHeader - v.buf0.length) = sizeof_MidiEventHeader := by
      omega
    simp [List.take_of_length_le, List.drop_append_eq_append_drop, h0l, e1,
      List.drop_of_length_le, List.take_append_eq_append_take, Nat.min_def]
    omega
  · have hz : v.buf0 = [] := by
      apply List.eq_nil_of_length_eq_zero; omega
    have hz0 : v.len0 = 0 := by omega
    rw [hz0, hz]
    simp only [Nat.sub_zero, List.nil_append]
    rw [memcpy_whole _ _ _ h0l]


theorem peek_header_eq (rb : RingBuffer) (h : rb.WF) :
    peek_header rb = header_of_bytes (rb.contents.take sizeof_MidiEventHeader) := by
  obtain ⟨e1, e2, _⟩ := RingBuffer.get_read_vector_spec rb h
  rw [peek_header, header_from_vector_eq _ e2, e1]

theorem vector_assert_get_read_vector (rb : RingBuffer) (h : rb.WF)
    (hs : sizeof_MidiEventHeader ≤ rb.read_space) :
    vector_assert rb.get_read_vector = true := by
  obtain ⟨_, _, e3⟩ := RingBuffer.get_read_vector_spec rb h
  unfold vector_assert
  split_ifs with hc
  · rfl
  · cases hb : rb.get_read_vector.buf1 with
    | none => have := e3 hb; omega
    | some b => simp

theorem frame_length (e : MidiEvent) :
    (frame e).length = sizeof_MidiEventHeader + e.data.length := by
  simp [frame, header_bytes_length]

theorem peek_header_frame (rb : RingBuffer) (h : rb.WF) (e : MidiEvent) (rest : List Nat)
    (he : e.valid) (hc : rb.contents = frame e ++ rest) :
    peek_header rb = ⟨e.time, e.data.length⟩ := by
  rw [peek_header_eq rb h, hc, frame, List.append_assoc,
    List.take_left' (header_bytes_length _)]
  have := header_of_bytes_header_bytes ⟨e.time, e.data.length⟩ []
  rw [List.append_nil] at this
  rw [this]
  obtain ⟨h1, _, h3⟩ := he
  simp only [Nat.mod_eq_of_lt h1, Nat.mod_eq_of_lt h3]

theorem read_space_of_contents (rb : RingBuffer) (e : MidiEvent) (rest : List Nat)
    (hc : rb.contents = frame e ++ rest) :
    rb.read_space = sizeof_MidiEventHeader + e.data.length + rest.length := by
  rw [← RingBuffer.contents_length, hc, List.length_append, frame_length]

theorem skip_frame (rb : RingBuffer) (h : rb.WF) (e : MidiEvent) (rest : List Nat)
    (hc : rb.contents = frame e ++ rest) :
    ((rb.increment_read_idx sizeof_MidiEventHeader).increment_read_idx e.data.length).WF ∧
    ((rb.increment_read_idx sizeof_MidiEventHeader).increment_read_idx e.data.length).contents
      = rest ∧
    (rb.increment_read_idx sizeof_MidiEventHeader).contents = e.data ++ rest ∧
    (rb.increment_read_idx sizeof_MidiEventHeader).read_space = e.data.length + rest.length := by
  have hrs := read_space_of_contents rb e rest hc
  have hwf1 := RingBuffer.increment_read_idx_WF rb h sizeof_MidiEventHeader
  have hc1 := RingBuffer.increment_read_idx_contents rb h sizeof_MidiEventHeader (by omega)
  have hr1 := RingBuffer.increment_read_idx_read_space rb h sizeof_MidiEventHeader (by omega)
  rw [hc, frame, List.append_assoc, List.drop_left' (header_bytes_length _)] at hc1
  refine ⟨RingBuffer.increment_read_idx_WF _ hwf1 _, ?_, hc1, by omega⟩
  rw [RingBuffer.increment_read_idx_contents _ hwf1 _ (by omega), hc1, List.drop_left' rfl]

theorem read_space_mod (rb : RingBuffer) (h : rb.WF) : rb.read_space % 2 ^ 32 = rb.read_space := by
  have := RingBuffer.read_space_lt rb h
  exact Nat.mod_eq_of_lt (by have := h.2.1; omega)

theorem dequeue_queue_empty (rb : RingBuffer) (ts_start ts_end timestamp : Nat)
    (midi_data : List Nat) (data_size : Nat)
    (hs : rb.read_space % 2 ^ 32 ≤ sizeof_MidiEventHeader) :
    dequeue_midi_event rb ts_start ts_end timestamp midi_data data_size =
      ⟨false, rb, timestamp, midi_data, data_size, .queue_empty, true, false⟩ := by
  simp only [dequeue_midi_event]
  rw [if_pos hs]

theorem dequeue_early (rb : RingBuffer) (h : rb.WF) (e : MidiEvent) (rest : List Nat)
    (he : e.valid) (hc : rb.contents = frame e ++ rest)
    (ts_start ts_end timestamp : Nat) (midi_data : List Nat) (data_size : Nat)
    (ht : ts_end ≤ e.time) :
    dequeue_midi_event rb ts_start ts_end timestamp midi_data data_size =
      ⟨false, rb, timestamp, midi_data, data_size, .early, true, false⟩ := by
  have hrs := read_space_of_contents rb e rest hc
  have hh : header_from_vector rb.get_read_vector = ⟨e.time, e.data.length⟩ :=
    peek_header_frame rb h e rest he hc
  have ha := vector_assert_get_read_vector rb h (by omega)
  have hpos := he.2.1
  simp only [dequeue_midi_event, read_space_mod rb h, hh, ha]
  rw [if_neg (by omega), if_pos (by simpa using ht)]

theorem dequeue_too_large (rb : RingBuffer) (h : rb.WF) (e : MidiEvent) (rest : List Nat)
    (he : e.valid) (hc : rb.contents = frame e ++ rest)
    (ts_start ts_end timestamp : Nat) (midi_data : List Nat) (data_size : Nat)
    (ht : e.time < ts_end) (hd : data_size < e.data.length) :
    dequeue_midi_event rb ts_start ts_end timestamp midi_data data_size =
      ⟨false, (rb.increment_read_idx sizeof_MidiEventHeader).increment_read_idx e.data.length,
        timestamp, midi_data, data_size, .too_large, true, decide (e.time < ts_start)⟩ := by
  have hrs := read_space_of_contents rb e rest hc
  have hh : header_from_vector rb.get_read_vector = ⟨e.time, e.data.length⟩ :=
    peek_header_frame rb h e rest he hc
  have ha := vector_assert_get_read_vector rb h (by omega)
  have hpos := he.2.1
  simp only [dequeue_midi_event, read_space_mod rb h, hh, ha]
  rw [if_neg (by omega), if_neg (by simpa using ht), if_pos (by simpa using hd)]
  simp [hpos]

theorem dequeue_found (rb : RingBuffer) (h : rb.WF) (e : MidiEvent) (rest : List Nat)
    (he : e.valid) (hc : rb.contents = frame e ++ rest)
    (ts_start ts_end timestamp : Nat) (midi_data : List Nat) (data_size : Nat)
    (ht : e.time < ts_end) (hd : e.data.length ≤ data_size) :
    dequeue_midi_event rb ts_start ts_end timestamp midi_data data_size =
      ⟨true, (rb.increment_read_idx sizeof_MidiEventHeader).increment_read_idx e.data.length,
        e.time, e.data ++ midi_data.drop e.data.length, e.data.length, .found, true,
        decide (e.time < ts_start)⟩ := by
  have hrs := read_space_of_contents rb e rest hc
  have hh : header_from_vector rb.get_read_vector = ⟨e.time, e.data.length⟩ :=
    peek_header_frame rb h e rest he hc
  have ha := vector_assert_get_read_vector rb h (by omega)
  have hpos := he.2.1
  obtain ⟨_, _, hc1, hr1⟩ := skip_frame rb h e rest hc
  have hmin : min e.data.length (rb.increment_read_idx sizeof_MidiEventHeader).read_space
      = e.data.length := Nat.min_eq_left (by omega)
  have hpk : (rb.increment_read_idx sizeof_MidiEventHeader).peek e.data.length = e.data := by
    rw [← RingBuffer.peek_take _ _ _ (show e.data.length ≤
      (rb.increment_read_idx sizeof_MidiEventHeader).read_space by omega)]
    show ((rb.increment_read_idx sizeof_MidiEventHeader).contents).take _ = _
    rw [hc1, List.take_left' rfl]
  simp only [dequeue_midi_event, read_space_mod rb h, hh, ha, RingBuffer.read, hmin, hpk]
  rw [if_neg (by omega), if_neg (by simpa using ht), if_neg (by simpa using hd)]
  simp [hpos, memcpy_at]


theorem write_space_lt (rb : RingBuffer) (h : rb.WF) : rb.write_space < 2 ^ 32 := by
  have := h.2.1
  unfold RingBuffer.write_space
  omega

theorem enqueue_fail (rb : RingBuffer) (midi_data : List Nat) (data_size timestamp now : Nat)
    (hf : data_size = 0 ∨ rb.write_space < total_size data_size) :
    enqueue_midi_msg rb midi_data data_size timestamp now = ⟨false, rb⟩ := by
  unfold enqueue_midi_msg
  rcases hf with hf | hf
  · rw [if_pos hf]
  · split_ifs <;> rfl

theorem enqueue_ok (rb : RingBuffer) (h : rb.WF) (midi_data : List Nat)
    (data_size timestamp now : Nat) (hpos : 0 < data_size)
    (hlen : data_size ≤ midi_data.length)
    (hfit : sizeof_MidiEventHeader + data_size ≤ rb.write_space) :
    (enqueue_midi_msg rb midi_data data_size timestamp now).ret = true ∧
    (enqueue_midi_msg rb midi_data data_size timestamp now).rb.WF ∧
    (enqueue_midi_msg rb midi_data data_size timestamp now).rb.contents =
      rb.contents ++ frame ⟨now % 2 ^ 64, midi_data.take data_size⟩ ∧
    (enqueue_midi_msg rb midi_data data_size timestamp now).rb.size = rb.size ∧
    (enqueue_midi_msg rb midi_data data_size timestamp now).rb.read_idx = rb.read_idx ∧
    (enqueue_midi_msg rb midi_data data_size timestamp now).rb.write_space =
      rb.write_space - (sizeof_MidiEventHeader + data_size) := by
  have hws := write_space_lt rb h
  have ht : total_size data_size = sizeof_MidiEventHeader + data_size :=
    Nat.mod_eq_of_lt (by omega)
  have hd : data_size % 2 ^ 32 = data_size := Nat.mod_eq_of_lt (by omega)
  have hl := header_bytes_length (MidiEventHeader.ctor now data_size)
  obtain ⟨a1, a2, a3, a4, a5, _⟩ := RingBuffer.write_spec rb h
    (header_bytes (MidiEventHeader.ctor now data_size)) sizeof_MidiEventHeader
    (by omega) (by omega)
  obtain ⟨b1, b2, b3, b4, b5, _⟩ := RingBuffer.write_spec _ a1 midi_data data_size hlen
    (by omega)
  have htk : (midi_data.take data_size).length = data_size := by
    simp [List.length_take, hlen]
  unfold enqueue_midi_msg
  rw [if_neg (by omega), if_neg (by omega)]
  refine ⟨rfl, b1, ?_, ?_, ?_, ?_⟩
  · rw [b2, a2, ← hl, List.take_length, frame, htk, MidiEventHeader.ctor, hd,
      List.append_assoc]
  · rw [b4, a4]
  · rw [b5, a5]
  · rw [b3, a3]; omega

theorem create_WF (sz : Nat) (h0 : 0 < sz) (h1 : sz < 2 ^ 32) : (RingBuffer.create sz).WF := by
  refine ⟨h0, h1, ?_, h0, h0⟩
  simp [RingBuffer.create]

theorem create_read_space (sz : Nat) : (RingBuffer.create sz).read_space = 0 := by
  simp [RingBuffer.create, RingBuffer.read_space]

theorem create_contents (sz : Nat) : (RingBuffer.create sz).contents = [] := by
  simp [RingBuffer.contents, create_read_space, RingBuffer.peek]

/-! ## Lemmas on call sequences -/

theorem frames_append (a b : List MidiEvent) : frames (a ++ b) = frames a ++ frames b := by
  induction a with
  | nil => rfl
  | cons e es ih => simp [frames, ih]

theorem enqueue_ret_false (rb : RingBuffer) (midi_data : List Nat)
    (data_size timestamp now : Nat)
    (h : (enqueue_midi_msg rb midi_data data_size timestamp now).ret = false) :
    (enqueue_midi_msg rb midi_data data_size timestamp now).rb = rb := by
  unfold enqueue_midi_msg at h ⊢
  split_ifs at h ⊢ <;> rfl

theorem enqueue_ret_true (rb : RingBuffer) (midi_data : List Nat)
    (data_size timestamp now : Nat)
    (h : (enqueue_midi_msg rb midi_data data_size timestamp now).ret = true) :
    0 < data_size ∧ total_size data_size ≤ rb.write_space := by
  unfold enqueue_midi_msg at h
  split_ifs at h with h1 h2
  omega

theorem Session.step_enqueue_Inv (s : Session) (hs : s.Inv) (c : EnqueueCall)
    (hr : sizeof_MidiEventHeader + c.midi_data.length < 2 ^ 32) (hn : c.now < 2 ^ 64) :
    (s.step (.enqueue c)).Inv := by
  obtain ⟨hwf, consumed, pending, h1, h2, h3, h4, h5⟩ := hs
  simp only [Session.step]
  cases hret : (c.apply s.rb).ret with
  | false =>
    have e := enqueue_ret_false _ _ _ _ _ hret
    have e' : (c.apply s.rb).rb = s.rb := e
    simp only [Bool.false_eq_true, if_false, e']
    exact ⟨hwf, consumed, pending, h1, h2, h3, h4, h5⟩
  | true =>
    obtain ⟨hpos, hle⟩ := enqueue_ret_true _ _ _ _ _ hret
    rw [show total_size c.midi_data.length = sizeof_MidiEventHeader + c.midi_data.length from
      Nat.mod_eq_of_lt hr] at hle
    obtain ⟨_, a2, a3, _⟩ := enqueue_ok s.rb hwf c.midi_data c.midi_data.length c.timestamp
      c.now hpos (Nat.le_refl _) hle
    simp only [if_true]
    refine ⟨a2, consumed, pending ++ [⟨c.now, c.midi_data⟩], ?_, ?_, h3, h4, ?_⟩
    · simp only [h1, List.append_assoc]
    · rw [show (c.apply s.rb).rb.contents = _ from a3, h2, frames_append, List.take_length,
        Nat.mod_eq_of_lt hn]
      simp [frames]
    · intro e he
      rcases List.mem_append.1 he with he | he
      · exact h5 e he
      · rw [List.mem_singleton] at he
        subst he
        exact ⟨hn, hpos, show c.midi_data.length < 2 ^ 32 by omega⟩

theorem Session.step_dequeue_Inv (s : Session) (hs : s.Inv) (c : DequeueCall) :
    (s.step (.dequeue c)).Inv := by
  obtain ⟨hwf, consumed, pending, h1, h2, h3, h4, h5⟩ := hs
  cases pending with
  | nil =>
    have hrs : s.rb.read_space = 0 := by
      rw [← RingBuffer.contents_length, h2]; rfl
    have e := dequeue_queue_empty s.rb c.timestamp_start c.timestamp_end c.timestamp
      c.midi_data c.data_size (by rw [hrs]; exact Nat.zero_le _)
    have e' : c.apply s.rb = _ := e
    simp only [Session.step, e']
    exact ⟨hwf, consumed, [], h1, h2, h3, h4, h5⟩
  | cons e es =>
    have he : e.valid := h5 e (by rw [h1]; simp)
    have hc : s.rb.contents = frame e ++ frames es := h2
    obtain ⟨hwf2, hrest, _, _⟩ := skip_frame s.rb hwf e (frames es) hc
    rcases Nat.lt_or_ge e.time c.timestamp_end with ht | ht
    · rcases Nat.lt_or_ge c.data_size e.data.length with hd | hd
      · have e1 := dequeue_too_large s.rb hwf e (frames es) he hc c.timestamp_start
          c.timestamp_end c.timestamp c.midi_data c.data_size ht hd
        have e' : c.apply s.rb = _ := e1
        simp only [Session.step, e']
        refine ⟨hwf2, consumed ++ [e], es, ?_, hrest, ?_, ?_, h5⟩
        · simp [h1]
        · exact h3.trans (List.sublist_append_left _ _)
        · simp only [List.length_append, List.length_singleton, h4]
          simp; omega
      · have e1 := dequeue_found s.rb hwf e (frames es) he hc c.timestamp_start
          c.timestamp_end c.timestamp c.midi_data c.data_size ht hd
        have e' : c.apply s.rb = _ := e1
        simp only [Session.step, e']
        refine ⟨hwf2, consumed ++ [e], es, ?_, hrest, ?_, ?_, h5⟩
        · simp [h1]
        · simp only [if_true, List.take_left' rfl]
          exact List.Sublist.append h3 (List.Sublist.refl _)
        · simp only [if_true, List.length_append, List.length_singleton, h4]
          omega
    · have e1 := dequeue_early s.rb hwf e (frames es) he hc c.timestamp_start
        c.timestamp_end c.timestamp c.midi_data c.data_size ht
      have e' : c.apply s.rb = _ := e1
      simp only [Session.step, e']
      exact ⟨hwf, consumed, e :: es, h1, h2, h3, h4, h5⟩

theorem Session.run_Inv (cs : List Call) (s : Session) (hs : s.Inv)
    (hr : calls_in_range cs) : (s.run cs).Inv := by
  induction cs generalizing s with
  | nil => exact hs
  | cons c cs ih =>
    have hr' : calls_in_range cs := fun x hx => hr x (List.mem_cons_of_mem _ hx)
    have hc := hr c (List.mem_cons_self _ _)
    simp only [Session.run, List.foldl_cons]
    apply ih
    · cases c with
      | enqueue e => exact Session.step_enqueue_Inv s hs e hc.1 hc.2
      | dequeue d => exact Session.step_dequeue_Inv s hs d
    · exact hr'

theorem Session.start_Inv (sz : Nat) (h0 : 0 < sz) (h1 : sz < 2 ^ 32) :
    (Session.start sz).Inv :=
  ⟨create_WF sz h0 h1, [], [], rfl, by simp [Session.start, create_contents, frames],
    List.Sublist.refl _, rfl, by simp [Session.start]⟩


/-! ## Lemmas for the intermediate state, the exits and the framing -/

theorem enqueue_two_writes (rb : RingBuffer) (midi_data : List Nat)
    (data_size timestamp now : Nat) (h0 : data_size ≠ 0)
    (h1 : ¬ rb.write_space < total_size data_size) :
    enqueue_midi_msg rb midi_data data_size timestamp now =
      ⟨true, ((enqueue_header_written rb data_size now).write midi_data data_size).1⟩ := by
  unfold enqueue_midi_msg enqueue_header_written
  rw [if_neg h0, if_neg h1]

theorem enqueue_header_written_spec (rb : RingBuffer) (h : rb.WF) (data_size now : Nat)
    (hfit : sizeof_MidiEventHeader ≤ rb.write_space) :
    (enqueue_header_written rb data_size now).WF ∧
    (enqueue_header_written rb data_size now).contents =
      rb.contents ++ header_bytes (MidiEventHeader.ctor now data_size) ∧
    (enqueue_header_written rb data_size now).read_idx = rb.read_idx := by
  have hl := header_bytes_length (MidiEventHeader.ctor now data_size)
  obtain ⟨a1, a2, _, _, a5, _⟩ := RingBuffer.write_spec rb h
    (header_bytes (MidiEventHeader.ctor now data_size)) sizeof_MidiEventHeader
    (by omega) hfit
  refine ⟨a1, ?_, a5⟩
  rw [show (enqueue_header_written rb data_size now).contents = _ from a2]
  rw [← hl, List.take_length]

/-- One call of `dequeue_midi_event` on a ring whose unread bytes are whole
frames followed by one lone header: the header stays unread. -/
theorem dequeue_keeps_lone_header (rb : RingBuffer) (h : rb.WF) (pending : List MidiEvent)
    (hv : ∀ e ∈ pending, e.valid) (hb : List Nat) (hbl : hb.length = sizeof_MidiEventHeader)
    (hc : rb.contents = frames pending ++ hb) (c : DequeueCall) :
    (c.apply rb).rb.WF ∧ (c.apply rb).rb.write_idx = rb.write_idx ∧
    (c.apply rb).rb.buf = rb.buf ∧
    (∃ gone left, pending = gone ++ left ∧ (c.apply rb).rb.contents = frames left ++ hb) ∧
    (pending = [] → c.apply rb =
      ⟨false, rb, c.timestamp, c.midi_data, c.data_size, .queue_empty, true, false⟩) := by
  cases pending with
  | nil =>
    have hrs : rb.read_space = sizeof_MidiEventHeader := by
      rw [← RingBuffer.contents_length, hc]; simpa [frames] using hbl
    have e := dequeue_queue_empty rb c.timestamp_start c.timestamp_end c.timestamp
      c.midi_data c.data_size (by rw [read_space_mod rb h, hrs])
    have e' : c.apply rb = _ := e
    rw [e']
    exact ⟨h, rfl, rfl, ⟨[], [], rfl, hc⟩, fun _ => rfl⟩
  | cons e es =>
    have he : e.valid := hv e (List.mem_cons_self _ _)
    have hc' : rb.contents = frame e ++ (frames es ++ hb) := by
      rw [hc, frames, List.append_assoc]
    obtain ⟨hwf2, hrest, _, _⟩ := skip_frame rb h e (frames es ++ hb) hc'
    rcases Nat.lt_or_ge e.time c.timestamp_end with ht | ht
    · rcases Nat.lt_or_ge c.data_size e.data.length with hd | hd
      · have e1 := dequeue_too_large rb h e (frames es ++ hb) he hc' c.timestamp_start
          c.timestamp_end c.timestamp c.midi_data c.data_size ht hd
        have e' : c.apply rb = _ := e1
        rw [e']
        exact ⟨hwf2, rfl, rfl, ⟨[e], es, rfl, hrest⟩, fun hn => by simp at hn⟩
      · have e1 := dequeue_found rb h e (frames es ++ hb) he hc' c.timestamp_start
          c.timestamp_end c.timestamp c.midi_data c.data_size ht hd
        have e' : c.apply rb = _ := e1
        rw [e']
        exact ⟨hwf2, rfl, rfl, ⟨[e], es, rfl, hrest⟩, fun hn => by simp at hn⟩
    · have e1 := dequeue_early rb h e (frames es ++ hb) he hc' c.timestamp_start
        c.timestamp_end c.timestamp c.midi_data c.data_size ht
      have e' : c.apply rb = _ := e1
      rw [e']
      exact ⟨h, rfl, rfl, ⟨[], e :: es, rfl, hc⟩, fun hn => by simp at hn⟩

theorem dequeue_ring_keeps_lone_header (cs : List DequeueCall) (rb : RingBuffer) (h : rb.WF)
    (pending : List MidiEvent) (hv : ∀ e ∈ pending, e.valid) (hb : List Nat)
    (hbl : hb.length = sizeof_MidiEventHeader) (hc : rb.contents = frames pending ++ hb) :
    (dequeue_ring rb cs).WF ∧ (dequeue_ring rb cs).write_idx = rb.write_idx ∧
    (dequeue_ring rb cs).buf = rb.buf ∧
    ∃ gone left, pending = gone ++ left ∧
      (dequeue_ring rb cs).contents = frames left ++ hb := by
  induction cs generalizing rb pending with
  | nil => exact ⟨h, rfl, rfl, [], pending, rfl, hc⟩
  | cons c cs ih =>
    obtain ⟨a1, a2, a3, ⟨gone, left, a4, a5⟩, _⟩ :=
      dequeue_keeps_lone_header rb h pending hv hb hbl hc c
    have hv' : ∀ e ∈ left, e.valid := fun e he => hv e (by rw [a4]; simp [he])
    obtain ⟨b1, b2, b3, gone2, left2, b4, b5⟩ := ih (c.apply rb).rb a1 left hv' a5
    refine ⟨b1, ?_, ?_, gone ++ gone2, left2, ?_, b5⟩
    · show (dequeue_ring (c.apply rb).rb cs).write_idx = _
      rw [b2, a2]
    · show (dequeue_ring (c.apply rb).rb cs).buf = _
      rw [b3, a3]
    · rw [a4, b4, List.append_assoc]

theorem dequeue_ret_iff_found (rb : RingBuffer)
    (timestamp_start timestamp_end timestamp : Nat) (midi_data : List Nat) (data_size : Nat) :
    ((dequeue_midi_event rb timestamp_start timestamp_end timestamp midi_data data_size).ret
        = true ↔
      (dequeue_midi_event rb timestamp_start timestamp_end timestamp midi_data data_size).path
        = .found) ∧
    ((dequeue_midi_event rb timestamp_start timestamp_end timestamp midi_data data_size).ret
        = false →
      (dequeue_midi_event rb timestamp_start timestamp_end timestamp midi_data
          data_size).timestamp = timestamp ∧
      (dequeue_midi_event rb timestamp_start timestamp_end timestamp midi_data
          data_size).data_size = data_size) ∧
    ((dequeue_midi_event rb timestamp_start timestamp_end timestamp midi_data data_size).path
        ≠ .found →
      (dequeue_midi_event rb timestamp_start timestamp_end timestamp midi_data data_size).path
        ≠ .garbled →
      (dequeue_midi_event rb timestamp_start timestamp_end timestamp midi_data
          data_size).midi_data = midi_data) := by
  simp only [dequeue_midi_event]
  split_ifs <;> simp

theorem dequeue_garbled_drains (rb : RingBuffer) (h : rb.WF)
    (timestamp_start timestamp_end timestamp : Nat) (midi_data : List Nat) (data_size : Nat)
    (hp : (dequeue_midi_event rb timestamp_start timestamp_end timestamp midi_data
      data_size).path = .garbled) :
    (dequeue_midi_event rb timestamp_start timestamp_end timestamp midi_data
      data_size).rb.read_space = 0 := by
  have hwf1 := RingBuffer.increment_read_idx_WF rb h sizeof_MidiEventHeader
  simp only [dequeue_midi_event] at hp ⊢
  split_ifs at hp ⊢ with h1 h2 h3 h4
  simp only [RingBuffer.read, RingBuffer.peek_length] at h4 ⊢
  have hmin : min (header_from_vector rb.get_read_vector).size
      (rb.increment_read_idx sizeof_MidiEventHeader).read_space =
      (rb.increment_read_idx sizeof_MidiEventHeader).read_space := by
    rcases Nat.le_total (header_from_vector rb.get_read_vector).size
      (rb.increment_read_idx sizeof_MidiEventHeader).read_space with hle | hle
    · exact absurd (Nat.min_eq_left hle) h4
    · exact Nat.min_eq_right hle
  rw [hmin, RingBuffer.increment_read_idx_read_space _ hwf1 _ (Nat.le_refl _), Nat.sub_self]

theorem dequeue_on_frames (rb : RingBuffer) (h : rb.WF) (pending : List MidiEvent)
    (hv : ∀ e ∈ pending, e.valid) (hc : rb.contents = frames pending) (c : DequeueCall) :
    (c.apply rb).asserts_hold = true ∧ (c.apply rb).path ≠ .garbled := by
  cases pending with
  | nil =>
    have hrs : rb.read_space = 0 := by
      rw [← RingBuffer.contents_length, hc]; rfl
    have e := dequeue_queue_empty rb c.timestamp_start c.timestamp_end c.timestamp
      c.midi_data c.data_size (by rw [hrs]; exact Nat.zero_le _)
    have e' : c.apply rb = _ := e
    rw [e']
    exact ⟨rfl, by simp⟩
  | cons e es =>
    have he : e.valid := hv e (List.mem_cons_self _ _)
    have hc' : rb.contents = frame e ++ frames es := hc
    rcases Nat.lt_or_ge e.time c.timestamp_end with ht | ht
    · rcases Nat.lt_or_ge c.data_size e.data.length with hd | hd
      · have e1 := dequeue_too_large rb h e (frames es) he hc' c.timestamp_start
          c.timestamp_end c.timestamp c.midi_data c.data_size ht hd
        have e' : c.apply rb = _ := e1
        rw [e']
        exact ⟨rfl, by simp⟩
      · have e1 := dequeue_found rb h e (frames es) he hc' c.timestamp_start
          c.timestamp_end c.timestamp c.midi_data c.data_size ht hd
        have e' : c.apply rb = _ := e1
        rw [e']
        exact ⟨rfl, by simp⟩
    · have e1 := dequeue_early rb h e (frames es) he hc' c.timestamp_start
        c.timestamp_end c.timestamp c.midi_data c.data_size ht
      have e' : c.apply rb = _ := e1
      rw [e']
      exact ⟨rfl, by simp⟩

/-- Within the range of `calls_in_range` the framing holds in every state
reached from a new ring: the unread bytes are the frames of events with a
payload of at least one byte, and a call of `dequeue_midi_event` made in that
state meets no failing assertion and does not take the exit for a payload
read that came back short. -/
theorem framing_invariant_in_range (sz : Nat) (hsz0 : 0 < sz) (hsz : sz < 2 ^ 32)
    (cs : List Call) (hr : calls_in_range cs) (c : DequeueCall) :
    ∃ pending, (∀ e ∈ pending, e.valid) ∧
      ((Session.start sz).run cs).rb.contents = frames pending ∧
      (c.apply ((Session.start sz).run cs).rb).asserts_hold = true ∧
      (c.apply ((Session.start sz).run cs).rb).path ≠ .garbled := by
  obtain ⟨hwf, consumed, pending, h1, h2, _, _, h5⟩ :=
    Session.run_Inv cs _ (Session.start_Inv sz hsz0 hsz) hr
  have hv : ∀ e ∈ pending, e.valid := fun e he => h5 e (by rw [h1]; simp [he])
  obtain ⟨a, b⟩ := dequeue_on_frames _ hwf pending hv h2 c
  exact ⟨pending, hv, h2, a, b⟩

/-! ## The order of delivery within range -/

/-- The order of delivery within the range of `calls_in_range`. Let any
sequence of calls of `enqueue_midi_msg` and `dequeue_midi_event`, in any
interleaving, be made on a ring that starts empty, every call in range, and
let the clock values read by the accepted enqueues be non-decreasing. Then the events
returned by the calls of `dequeue_midi_event` that returned `true` are a
subsequence of the accepted events in enqueue order, their timestamps are
non-decreasing, and the events missing from those already passed are as many
as the calls that skipped an event as too large; the unread bytes are the
frames of the events still pending. -/
theorem fifo_order_in_range (sz : Nat) (hsz0 : 0 < sz) (hsz : sz < 2 ^ 32) (cs : List Call)
    (hr : calls_in_range cs)
    (hclock : (((Session.start sz).run cs).enqueued.map MidiEvent.time).Pairwise (· ≤ ·)) :
    ((Session.start sz).run cs).dequeued.Sublist ((Session.start sz).run cs).enqueued ∧
    (((Session.start sz).run cs).dequeued.map MidiEvent.time).Pairwise (· ≤ ·) ∧
    ∃ passed pending, ((Session.start sz).run cs).enqueued = passed ++ pending ∧
      ((Session.start sz).run cs).dequeued.Sublist passed ∧
      passed.length = ((Session.start sz).run cs).dequeued.length +
        ((Session.start sz).run cs).skipped ∧
      ((Session.start sz).run cs).rb.contents = frames pending := by
  obtain ⟨_, consumed, pending, h1, h2, h3, h4, _⟩ :=
    Session.run_Inv cs _ (Session.start_Inv sz hsz0 hsz) hr
  have hsub : ((Session.start sz).run cs).dequeued.Sublist
      ((Session.start sz).run cs).enqueued := by
    rw [h1]
    exact h3.trans (List.sublist_append_left _ _)
  exact ⟨hsub, List.Pairwise.sublist (hsub.map _) hclock, consumed, pending, h1, h3, h4, h2⟩

/-- An instance of the order within range: three events are enqueued at clock
values 1000, 2000 and 3000 around four dequeues; the second event (5 bytes) is skipped by a call
with capacity 4, the first and the third are returned, in that order. -/
theorem fifo_order_in_range_example :
    calls_in_range
      [.enqueue ⟨[0x90, 60, 100], 0, 1000⟩, .enqueue ⟨[0xf0, 1, 2, 3, 0xf7], 0, 2000⟩,
        .dequeue ⟨0, 5000, 0, [0, 0, 0, 0], 4⟩, .enqueue ⟨[0x80, 60, 0], 0, 3000⟩,
        .dequeue ⟨0, 5000, 0, [0, 0, 0, 0], 4⟩, .dequeue ⟨0, 5000, 0, [0, 0, 0, 0], 4⟩,
        .dequeue ⟨0, 5000, 0, [0, 0, 0, 0], 4⟩] ∧
    ((Session.start 64).run
      [.enqueue ⟨[0x90, 60, 100], 0, 1000⟩, .enqueue ⟨[0xf0, 1, 2, 3, 0xf7], 0, 2000⟩,
        .dequeue ⟨0, 5000, 0, [0, 0, 0, 0], 4⟩, .enqueue ⟨[0x80, 60, 0], 0, 3000⟩,
        .dequeue ⟨0, 5000, 0, [0, 0, 0, 0], 4⟩, .dequeue ⟨0, 5000, 0, [0, 0, 0, 0], 4⟩,
        .dequeue ⟨0, 5000, 0, [0, 0, 0, 0], 4⟩]).dequeued =
      [⟨1000, [0x90, 60, 100]⟩, ⟨3000, [0x80, 60, 0]⟩] ∧
    (((Session.start 64).run
      [.enqueue ⟨[0x90, 60, 100], 0, 1000⟩, .enqueue ⟨[0xf0, 1, 2, 3, 0xf7], 0, 2000⟩,
        .dequeue ⟨0, 5000, 0, [0, 0, 0, 0], 4⟩, .enqueue ⟨[0x80, 60, 0], 0, 3000⟩,
        .dequeue ⟨0, 5000, 0, [0, 0, 0, 0], 4⟩, .dequeue ⟨0, 5000, 0, [0, 0, 0, 0], 4⟩,
        .dequeue ⟨0, 5000, 0, [0, 0, 0, 0], 4⟩]).dequeued.map MidiEvent.time).Pairwise
      (· ≤ ·) :=
  ⟨by decide, by decide,
    (fifo_order_in_range 64 (by decide) (by decide)
      [.enqueue ⟨[0x90, 60, 100], 0, 1000⟩, .enqueue ⟨[0xf0, 1, 2, 3, 0xf7], 0, 2000⟩,
        .dequeue ⟨0, 5000, 0, [0, 0, 0, 0], 4⟩, .enqueue ⟨[0x80, 60, 0], 0, 3000⟩,
        .dequeue ⟨0, 5000, 0, [0, 0, 0, 0], 4⟩, .dequeue ⟨0, 5000, 0, [0, 0, 0, 0], 4⟩,
        .dequeue ⟨0, 5000, 0, [0, 0, 0, 0], 4⟩]
      (by decide) (by decide)).2.1⟩

/-! ## The run with the oversize payload -/

/-- C2 (peek-then-defer). For every ring state in which the header that
`dequeue_midi_event` peeks has a timestamp `>= timestamp_end`, the call
returns `false` and leaves the ring (bytes and both cursors) and the caller's
`timestamp`, `midi_data` and `data_size` as they were; when more than a
header is unread it leaves by the exit for an event of a future cycle; and a
second call with the same arguments gives the same result. -/
theorem dequeue_defers_future_event (rb : RingBuffer)
    (timestamp_start timestamp_end timestamp : Nat) (midi_data : List Nat) (data_size : Nat)
    (ht : timestamp_end ≤ (peek_header rb).time) :
    (dequeue_midi_event rb timestamp_start timestamp_end timestamp midi_data data_size).ret
      = false ∧
    (dequeue_midi_event rb timestamp_start timestamp_end timestamp midi_data data_size).rb
      = rb ∧
    (dequeue_midi_event rb timestamp_start timestamp_end timestamp midi_data data_size).timestamp
      = timestamp ∧
    (dequeue_midi_event rb timestamp_start timestamp_end timestamp midi_data data_size).midi_data
      = midi_data ∧
    (dequeue_midi_event rb timestamp_start timestamp_end timestamp midi_data data_size).data_size
      = data_size ∧
    (sizeof_MidiEventHeader < rb.read_space % 2 ^ 32 →
      (dequeue_midi_event rb timestamp_start timestamp_end timestamp midi_data data_size).path
        = .early) ∧
    dequeue_midi_event
      (dequeue_midi_event rb timestamp_start timestamp_end timestamp midi_data data_size).rb
      timestamp_start timestamp_end
      (dequeue_midi_event rb timestamp_start timestamp_end timestamp midi_data data_size).timestamp
      (dequeue_midi_event rb timestamp_start timestamp_end timestamp midi_data data_size).midi_data
      (dequeue_midi_event rb timestamp_start timestamp_end timestamp midi_data data_size).data_size
      = dequeue_midi_event rb timestamp_start timestamp_end timestamp midi_data data_size := by
  have ht2 : timestamp_end ≤ (header_from_vector rb.get_read_vector).time := ht
  by_cases hs : rb.read_space % 2 ^ 32 ≤ sizeof_MidiEventHeader
  · have e := dequeue_queue_empty rb timestamp_start timestamp_end timestamp midi_data
      data_size hs
    refine ⟨by rw [e], by rw [e], by rw [e], by rw [e], by rw [e], fun h => absurd hs (by omega),
      ?_⟩
    rw [e]
    exact e
  · have e : dequeue_midi_event rb timestamp_start timestamp_end timestamp midi_data data_size
        = ⟨false, rb, timestamp, midi_data, data_size, .early,
          vector_assert rb.get_read_vector, false⟩ := by
      simp only [dequeue_midi_event]
      rw [if_neg hs, if_pos (by simpa using ht2)]
    refine ⟨by rw [e], by rw [e], by rw [e], by rw [e], by rw [e], fun _ => by rw [e], ?_⟩
    rw [e]
    exact e

/-- Witness of C2: the ring holds one event stamped 1000 and the window ends
at 900. -/
theorem dequeue_defers_future_event_witness :
    900 ≤ (peek_header (note_ring 1000)).time ∧
    (dequeue_midi_event (note_ring 1000) 800 900 7 [0, 0, 0] 3).ret = false ∧
    (dequeue_midi_event (note_ring 1000) 800 900 7 [0, 0, 0] 3).rb = note_ring 1000 :=
  ⟨by decide,
    (dequeue_defers_future_event (note_ring 1000) 800 900 7 [0, 0, 0] 3 (by decide)).1,
    (dequeue_defers_future_event (note_ring 1000) 800 900 7 [0, 0, 0] 3 (by decide)).2.1⟩

/-- C3 (enqueue failure is atomic). For every ring state and every payload
size `data_size` with `sizeof(MidiEventHeader) + data_size < 2^32`: if
`data_size` is 0 or header and payload exceed the write space,
`enqueue_midi_msg` returns `false` and the ring (bytes and both cursors) is
unchanged; if `data_size > 0` and they fit, it returns `true`. -/
theorem enqueue_failure_atomic (rb : RingBuffer) (midi_data : List Nat)
    (data_size timestamp now : Nat)
    (hn : sizeof_MidiEventHeader + data_size < 2 ^ 32) :
    ((data_size = 0 ∨ sizeof_MidiEventHeader + data_size > rb.write_space) →
      enqueue_midi_msg rb midi_data data_size timestamp now = ⟨false, rb⟩) ∧
    ((data_size > 0 ∧ sizeof_MidiEventHeader + data_size ≤ rb.write_space) →
      (enqueue_midi_msg rb midi_data data_size timestamp now).ret = true) := by
  have ht : total_size data_size = sizeof_MidiEventHeader + data_size := Nat.mod_eq_of_lt hn
  constructor
  · intro h
    apply enqueue_fail
    rcases h with h | h
    · exact Or.inl h
    · exact Or.inr (by omega)
  · rintro ⟨h1, h2⟩
    unfold enqueue_midi_msg
    rw [if_neg (by omega), if_neg (by omega)]

/-- Witness of C3: a payload of 40 bytes offered to a ring with 30 bytes of
write space is refused and the ring stays as it was. -/
theorem enqueue_failure_atomic_witness :
    sizeof_MidiEventHeader + 40 < 2 ^ 32 ∧ crowded_ring.write_space = 30 ∧
    enqueue_midi_msg crowded_ring (List.replicate 40 1) 40 0 2000 = ⟨false, crowded_ring⟩ :=
  ⟨by decide, by decide,
    (enqueue_failure_atomic crowded_ring (List.replicate 40 1) 40 0 2000 (by decide)).1
      (Or.inr (by decide))⟩

/-- C5 (late events are delivered). If the unread bytes of a well-formed ring
start with the frame of an event whose timestamp is below `timestamp_start`
and below `timestamp_end` and whose payload is no longer than the caller's
capacity, `dequeue_midi_event` consumes it and returns `true` with its
timestamp, its size and its payload, printing the diagnostic for a late
event. And for every ring state `any_rb` and any two values of
`timestamp_start`, the return value, the ring left behind and the three
outputs are the same. -/
theorem dequeue_delivers_late_event (rb : RingBuffer) (hwf : rb.WF) (e : MidiEvent)
    (rest : List Nat) (he : e.valid) (hc : rb.contents = frame e ++ rest)
    (timestamp_start timestamp_end timestamp : Nat) (midi_data : List Nat) (data_size : Nat)
    (any_rb : RingBuffer) (other_start : Nat)
    (hlate : e.time < timestamp_start) (ht : e.time < timestamp_end)
    (hd : e.data.length ≤ data_size) :
    ((dequeue_midi_event rb timestamp_start timestamp_end timestamp midi_data data_size).ret
        = true ∧
      (dequeue_midi_event rb timestamp_start timestamp_end timestamp midi_data data_size).timestamp
        = e.time ∧
      (dequeue_midi_event rb timestamp_start timestamp_end timestamp midi_data data_size).data_size
        = e.data.length ∧
      (dequeue_midi_event rb timestamp_start timestamp_end timestamp midi_data
        data_size).midi_data = e.data ++ midi_data.drop e.data.length ∧
      (dequeue_midi_event rb timestamp_start timestamp_end timestamp midi_data
        data_size).rb.contents = rest ∧
      (dequeue_midi_event rb timestamp_start timestamp_end timestamp midi_data data_size).late
        = true) ∧
    ((dequeue_midi_event any_rb other_start timestamp_end timestamp midi_data data_size).ret =
        (dequeue_midi_event any_rb timestamp_start timestamp_end timestamp midi_data
          data_size).ret ∧
      (dequeue_midi_event any_rb other_start timestamp_end timestamp midi_data data_size).rb =
        (dequeue_midi_event any_rb timestamp_start timestamp_end timestamp midi_data
          data_size).rb ∧
      (dequeue_midi_event any_rb other_start timestamp_end timestamp midi_data
          data_size).timestamp =
        (dequeue_midi_event any_rb timestamp_start timestamp_end timestamp midi_data
          data_size).timestamp ∧
      (dequeue_midi_event any_rb other_start timestamp_end timestamp midi_data
          data_size).midi_data =
        (dequeue_midi_event any_rb timestamp_start timestamp_end timestamp midi_data
          data_size).midi_data ∧
      (dequeue_midi_event any_rb other_start timestamp_end timestamp midi_data
          data_size).data_size =
        (dequeue_midi_event any_rb timestamp_start timestamp_end timestamp midi_data
          data_size).data_size) := by
  constructor
  · have e1 := dequeue_found rb hwf e rest he hc timestamp_start timestamp_end timestamp
      midi_data data_size ht hd
    obtain ⟨_, hrest, _, _⟩ := skip_frame rb hwf e rest hc
    rw [e1]
    exact ⟨rfl, rfl, rfl, rfl, hrest, by simpa using hlate⟩
  · simp only [dequeue_midi_event]
    split_ifs <;> exact ⟨rfl, rfl, rfl, rfl, rfl⟩

/-- Witness of C5: an event stamped 500 is returned by a call for the window
from 600 to 700. -/
theorem dequeue_delivers_late_event_witness :
    (note_ring 500).WF ∧ (note_ring 500).contents = frame ⟨500, [0x90, 60, 100]⟩ ++ [] ∧
    (dequeue_midi_event (note_ring 500) 600 700 0 [0, 0, 0, 0] 4).ret = true ∧
    (dequeue_midi_event (note_ring 500) 600 700 0 [0, 0, 0, 0] 4).timestamp = 500 ∧
    (dequeue_midi_event (note_ring 500) 600 700 0 [0, 0, 0, 0] 4).data_size = 3 :=
  ⟨by decide, by decide,
    (dequeue_delivers_late_event (note_ring 500) (by decide) ⟨500, [0x90, 60, 100]⟩ []
      (by decide) (by decide) 600 700 0 [0, 0, 0, 0] 4 (note_ring 500) 0
      (by decide) (by decide) (by decide)).1.1,
    (dequeue_delivers_late_event (note_ring 500) (by decide) ⟨500, [0x90, 60, 100]⟩ []
      (by decide) (by decide) 600 700 0 [0, 0, 0, 0] 4 (note_ring 500) 0
      (by decide) (by decide) (by decide)).1.2.1,
    (dequeue_delivers_late_event (note_ring 500) (by decide) ⟨500, [0x90, 60, 100]⟩ []
      (by decide) (by decide) 600 700 0 [0, 0, 0, 0] 4 (note_ring 500) 0
      (by decide) (by decide) (by decide)).1.2.2.1⟩

/-- C6 (oversize skip keeps the stream framed). If the unread bytes of a
well-formed ring are the frame of an event `e` with timestamp below
`timestamp_end` and a payload longer than the caller's capacity, followed by
the frames of further events, `dequeue_midi_event` returns `false`, leaves the
caller's buffer, `timestamp` and `data_size` untouched, and advances the read
cursor by exactly `sizeof(MidiEventHeader) + size` (modulo the capacity)
without touching the bytes or the write cursor; the unread bytes are then the
frames of the events behind `e`, and the header peeked by the next call is
the header of the event enqueued right after `e`. -/
theorem dequeue_oversize_skip (rb : RingBuffer) (hwf : rb.WF) (e next : MidiEvent)
    (more : List MidiEvent) (he : e.valid) (hnext : next.valid)
    (hc : rb.contents = frame e ++ frames (next :: more))
    (timestamp_start timestamp_end timestamp : Nat) (midi_data : List Nat) (data_size : Nat)
    (ht : e.time < timestamp_end) (hd : data_size < e.data.length) :
    (dequeue_midi_event rb timestamp_start timestamp_end timestamp midi_data data_size).ret
      = false ∧
    (dequeue_midi_event rb timestamp_start timestamp_end timestamp midi_data data_size).midi_data
      = midi_data ∧
    (dequeue_midi_event rb timestamp_start timestamp_end timestamp midi_data data_size).timestamp
      = timestamp ∧
    (dequeue_midi_event rb timestamp_start timestamp_end timestamp midi_data data_size).data_size
      = data_size ∧
    (dequeue_midi_event rb timestamp_start timestamp_end timestamp midi_data
      data_size).rb.read_idx
      = (rb.read_idx + (sizeof_MidiEventHeader + e.data.length)) % rb.size ∧
    (dequeue_midi_event rb timestamp_start timestamp_end timestamp midi_data
      data_size).rb.write_idx = rb.write_idx ∧
    (dequeue_midi_event rb timestamp_start timestamp_end timestamp midi_data
      data_size).rb.buf = rb.buf ∧
    (dequeue_midi_event rb timestamp_start timestamp_end timestamp midi_data
      data_size).rb.contents = frames (next :: more) ∧
    peek_header (dequeue_midi_event rb timestamp_start timestamp_end timestamp midi_data
      data_size).rb = ⟨next.time, next.data.length⟩ := by
  have e1 := dequeue_too_large rb hwf e (frames (next :: more)) he hc timestamp_start
    timestamp_end timestamp midi_data data_size ht hd
  obtain ⟨hwf2, hrest, _, _⟩ := skip_frame rb hwf e (frames (next :: more)) hc
  rw [e1]
  refine ⟨rfl, rfl, rfl, rfl, ?_, rfl, rfl, hrest, ?_⟩
  · simp only [RingBuffer.increment_read_idx, Nat.mod_add_mod, Nat.add_assoc]
  · exact peek_header_frame _ hwf2 next (frames more) hnext hrest

/-- Witness of C6: a five-byte event stamped 1000 is skipped by a call with
capacity 3; the read cursor moves from 0 to 17 and the next header is that of
the Note-On stamped 2000. -/
theorem dequeue_oversize_skip_witness :
    two_event_ring.WF ∧
    two_event_ring.contents =
      frame ⟨1000, [0xf0, 1, 2, 3, 0xf7]⟩ ++ frames [⟨2000, [0x90, 60, 100]⟩] ∧
    (dequeue_midi_event two_event_ring 900 5000 0 [0, 0, 0] 3).ret = false ∧
    (dequeue_midi_event two_event_ring 900 5000 0 [0, 0, 0] 3).rb.read_idx = 17 ∧
    peek_header (dequeue_midi_event two_event_ring 900 5000 0 [0, 0, 0] 3).rb = ⟨2000, 3⟩ :=
  ⟨by decide, by decide,
    (dequeue_oversize_skip two_event_ring (by decide) ⟨1000, [0xf0, 1, 2, 3, 0xf7]⟩
      ⟨2000, [0x90, 60, 100]⟩ [] (by decide) (by decide) (by decide) 900 5000 0 [0, 0, 0] 3
      (by decide) (by decide)).1,
    (dequeue_oversize_skip two_event_ring (by decide) ⟨1000, [0xf0, 1, 2, 3, 0xf7]⟩
      ⟨2000, [0x90, 60, 100]⟩ [] (by decide) (by decide) (by decide) 900 5000 0 [0, 0, 0] 3
      (by decide) (by decide)).2.2.2.2.1,
    (dequeue_oversize_skip two_event_ring (by decide) ⟨1000, [0xf0, 1, 2, 3, 0xf7]⟩
      ⟨2000, [0x90, 60, 100]⟩ [] (by decide) (by decide) (by decide) 900 5000 0 [0, 0, 0] 3
      (by decide) (by decide)).2.2.2.2.2.2.2.2⟩

/-- C7 (wrap-independent header decode). For every header value `h` (a 64-bit
timestamp and a 32-bit size) and every `k < sizeof(MidiEventHeader)`: the
header that lines 262-274 of `dequeue_midi_event` build from a read vector
whose segment 0 holds the first `k` bytes of `h` and whose segment 1 holds the
remaining bytes (and any bytes after them) equals the header built when all
the bytes of `h` lie in segment 0, and both are `h`, the value that
`enqueue_midi_msg` wrote. Likewise on a ring: whenever the unread bytes of a
well-formed ring start with the bytes of `h`, wherever the read cursor stands,
the peeked header is `h`. -/
theorem header_decode_wrap_independent (h : MidiEventHeader) (htime : h.time < 2 ^ 64)
    (hsize : h.size < 2 ^ 32) (k : Nat) (hk : k < sizeof_MidiEventHeader)
    (after0 after1 : List Nat) (b1 : Option (List Nat)) (l1 : Nat)
    (rb : RingBuffer) (hwf : rb.WF) (rest : List Nat)
    (hc : rb.contents = header_bytes h ++ rest) :
    header_from_vector ⟨(header_bytes h).take k, k,
        some ((header_bytes h).drop k ++ after1), sizeof_MidiEventHeader - k + after1.length⟩
      = header_from_vector ⟨header_bytes h ++ after0,
        sizeof_MidiEventHeader + after0.length, b1, l1⟩ ∧
    header_from_vector ⟨header_bytes h ++ after0,
        sizeof_MidiEventHeader + after0.length, b1, l1⟩ = h ∧
    peek_header rb = h := by
  have hl := header_bytes_length h
  have hh : header_of_bytes (header_bytes h) = h := by
    have := header_of_bytes_header_bytes h []
    rw [List.append_nil] at this
    rw [this, Nat.mod_eq_of_lt htime, Nat.mod_eq_of_lt hsize]
  have e0 : header_from_vector ⟨header_bytes h ++ after0,
      sizeof_MidiEventHeader + after0.length, b1, l1⟩ = h := by
    rw [header_from_vector_eq _ (by simp [hl]), List.append_assoc,
      List.take_left' hl, hh]
  have es : header_from_vector ⟨(header_bytes h).take k, k,
      some ((header_bytes h).drop k ++ after1), sizeof_MidiEventHeader - k + after1.length⟩
      = h := by
    rw [header_from_vector_eq _ (by simp [hl]; omega)]
    simp only [Option.getD_some]
    rw [← List.append_assoc, List.take_append_drop, List.take_left' hl, hh]
  refine ⟨by rw [es, e0], e0, ?_⟩
  rw [peek_header_eq rb hwf, hc, List.take_left' hl, hh]

/-- Witness of C7: in a ring of 32 bytes with the read cursor at 21 the header
of an event stamped 1000 lies in the last 11 bytes of the array and in its
first byte; the read vector has segments of 11 and 4 bytes, and the header is
decoded as `(1000, 3)`. -/
theorem header_decode_wrap_independent_witness :
    wrapped_ring.WF ∧ wrapped_ring.read_idx = 21 ∧
    wrapped_ring.get_read_vector.len0 = 11 ∧ wrapped_ring.get_read_vector.len1 = 4 ∧
    wrapped_ring.contents = header_bytes ⟨1000, 3⟩ ++ [0x90, 60, 100] ∧
    peek_header wrapped_ring = ⟨1000, 3⟩ :=
  ⟨by decide, by decide, by decide, by decide, by decide,
    (header_decode_wrap_independent ⟨1000, 3⟩ (by decide) (by decide) 11 (by decide)
      [0x90, 60, 100] [0x90, 60, 100] none 0 wrapped_ring (by decide) [0x90, 60, 100]
      (by decide)).2.2⟩

/-- C8 (empty queue). For every ring state with `read_space` at most
`sizeof(MidiEventHeader)` and every window, `dequeue_midi_event` returns
`false` by its first exit, before the read vector is taken, and leaves the
ring (so the read cursor) and the caller's `timestamp`, `midi_data` and
`data_size` unchanged; in particular on a new ring of any capacity `sz`, on
which nothing was ever enqueued. -/
theorem dequeue_empty_queue (rb : RingBuffer) (sz : Nat)
    (timestamp_start timestamp_end timestamp : Nat) (midi_data : List Nat) (data_size : Nat)
    (hs : rb.read_space ≤ sizeof_MidiEventHeader) :
    dequeue_midi_event rb timestamp_start timestamp_end timestamp midi_data data_size =
      ⟨false, rb, timestamp, midi_data, data_size, .queue_empty, true, false⟩ ∧
    dequeue_midi_event (RingBuffer.create sz) timestamp_start timestamp_end timestamp midi_data
        data_size =
      ⟨false, RingBuffer.create sz, timestamp, midi_data, data_size, .queue_empty, true,
        false⟩ := by
  constructor
  · apply dequeue_queue_empty
    exact Nat.le_trans (Nat.mod_le _ _) hs
  · apply dequeue_queue_empty
    rw [create_read_space]
    exact Nat.zero_le _

/-- Witness of C8: a ring from which the only event was dequeued has nothing
unread, and a further call returns `false` and changes nothing. -/
theorem dequeue_empty_queue_witness :
    (dequeue_midi_event (note_ring 1000) 900 1100 0 [0, 0, 0] 3).rb.read_space
      ≤ sizeof_MidiEventHeader ∧
    dequeue_midi_event (dequeue_midi_event (note_ring 1000) 900 1100 0 [0, 0, 0] 3).rb
        1100 1300 42 [9, 9, 9] 3 =
      ⟨false, (dequeue_midi_event (note_ring 1000) 900 1100 0 [0, 0, 0] 3).rb, 42, [9, 9, 9], 3,
        .queue_empty, true, false⟩ :=
  ⟨by decide,
    (dequeue_empty_queue (dequeue_midi_event (note_ring 1000) 900 1100 0 [0, 0, 0] 3).rb 64
      1100 1300 42 [9, 9, 9] 3 (by decide)).1⟩

/-- C9, the claim as stated fails. With the handler compiled in, a delivery
with zero recorded bytes returns at the guard of line 226 and the sysex slot
is not re-submitted (no call of `midiInAddBuffer` is made); and without
`ENABLE_SYSEX` the body is empty, so a malformed buffer `F1 01 F7` is not
followed by a re-submission either. -/
theorem sysex_no_rearm_on_empty_delivery :
    ¬ ((handle_sysex_msg true fresh_device ⟨[0, 0, 0, 0], 0⟩ 0 1000).add_buffer_calls =
      fresh_device.add_buffer_calls + 1) ∧
    ¬ ((handle_sysex_msg false fresh_device ⟨[0xf1, 1, 0xf7], 3⟩ 0 1000).add_buffer_calls =
      fresh_device.add_buffer_calls + 1) := by
  decide

/-- C9 as amended (sysex re-arm). With the handler compiled in
(`ENABLE_SYSEX`), for every delivery with at least one recorded byte,
well-formed or not and whether or not the enqueue succeeds, the handler
re-submits the sysex slot exactly once before returning. A malformed delivery
with recorded bytes leaves the ring and the record of enqueue calls unchanged,
and a well-formed sysex delivered after it is still passed to
`enqueue_midi_msg`, the slot being re-submitted once more. -/
theorem sysex_rearm_when_bytes_recorded (dev : WinMMEMidiInputDevice)
    (any_header midi_header next_header : MIDIHDR)
    (timestamp now next_timestamp next_now : Nat)
    (ha : 0 < any_header.dwBytesRecorded)
    (hb : 0 < midi_header.dwBytesRecorded)
    (hbad : ¬ sysex_well_formed midi_header)
    (hnext : sysex_well_formed next_header) :
    (handle_sysex_msg true dev any_header timestamp now).add_buffer_calls =
      dev.add_buffer_calls + 1 ∧
    handle_sysex_msg true dev midi_header timestamp now =
      ⟨dev.m_midi_buffer, dev.add_buffer_calls + 1, dev.enqueue_calls⟩ ∧
    handle_sysex_msg true (handle_sysex_msg true dev midi_header timestamp now) next_header
        next_timestamp next_now =
      ⟨(enqueue_midi_msg dev.m_midi_buffer next_header.lpData next_header.dwBytesRecorded
          next_timestamp next_now).rb,
        dev.add_buffer_calls + 2,
        dev.enqueue_calls ++ [(next_header.lpData, next_header.dwBytesRecorded)]⟩ := by
  have hm : handle_sysex_msg true dev midi_header timestamp now =
      ⟨dev.m_midi_buffer, dev.add_buffer_calls + 1, dev.enqueue_calls⟩ := by
    unfold sysex_well_formed at hbad
    simp only [handle_sysex_msg, if_true]
    rw [if_neg (by omega), if_pos (by
      by_contra hcon
      exact hbad ⟨hb, by_contra fun h1 => hcon (Or.inl h1),
        by_contra fun h2 => hcon (Or.inr h2)⟩)]
  refine ⟨?_, hm, ?_⟩
  · simp only [handle_sysex_msg, if_true]
    rw [if_neg (by omega)]
    split_ifs <;> rfl
  · rw [hm]
    obtain ⟨n1, n2, n3⟩ := hnext
    simp only [handle_sysex_msg, if_true]
    rw [if_neg (by omega), if_neg (by rw [n2, n3]; simp)]

/-- Witness of C9 as amended: a buffer `F1 01 F7` is discarded and the slot
re-submitted, and the sysex `F0 7E F7` delivered next is enqueued. -/
theorem sysex_rearm_when_bytes_recorded_witness :
    ¬ sysex_well_formed ⟨[0xf1, 1, 0xf7], 3⟩ ∧ sysex_well_formed ⟨[0xf0, 0x7e, 0xf7], 3⟩ ∧
    handle_sysex_msg true fresh_device ⟨[0xf1, 1, 0xf7], 3⟩ 0 1000 =
      ⟨fresh_device.m_midi_buffer, 1, []⟩ ∧
    handle_sysex_msg true (handle_sysex_msg true fresh_device ⟨[0xf1, 1, 0xf7], 3⟩ 0 1000)
        ⟨[0xf0, 0x7e, 0xf7], 3⟩ 0 2000 =
      ⟨(enqueue_midi_msg fresh_device.m_midi_buffer [0xf0, 0x7e, 0xf7] 3 0 2000).rb, 2,
        [([0xf0, 0x7e, 0xf7], 3)]⟩ :=
  ⟨by decide, by decide,
    (sysex_rearm_when_bytes_recorded fresh_device ⟨[0xf0, 0x7e, 0xf7], 3⟩ ⟨[0xf1, 1, 0xf7], 3⟩
      ⟨[0xf0, 0x7e, 0xf7], 3⟩ 0 1000 0 2000 (by decide) (by decide) (by decide)
      (by decide)).2.1,
    (sysex_rearm_when_bytes_recorded fresh_device ⟨[0xf0, 0x7e, 0xf7], 3⟩ ⟨[0xf1, 1, 0xf7], 3⟩
      ⟨[0xf0, 0x7e, 0xf7], 3⟩ 0 1000 0 2000 (by decide) (by decide) (by decide)
      (by decide)).2.2⟩

/-- C10, the claim as stated fails: the body of the handler is compiled only
under `ENABLE_SYSEX`; without the flag a well-formed sysex `F0 7E F7` is not
passed to `enqueue_midi_msg` and the ring stays as it was. -/
theorem sysex_not_enqueued_without_flag :
    sysex_well_formed ⟨[0xf0, 0x7e, 0xf7], 3⟩ ∧
    (handle_sysex_msg false fresh_device ⟨[0xf0, 0x7e, 0xf7], 3⟩ 0 1000).enqueue_calls = [] ∧
    (handle_sysex_msg false fresh_device ⟨[0xf0, 0x7e, 0xf7], 3⟩ 0 1000).m_midi_buffer =
      fresh_device.m_midi_buffer := by
  decide

/-- C10 as amended (sysex validation). With the handler compiled in
(`ENABLE_SYSEX`), for every delivered buffer with `byte_count` recorded bytes,
the handler passes the buffer and `byte_count` to `enqueue_midi_msg` if and
only if `byte_count > 0`, the first byte is `0xF0` and the byte at index
`byte_count - 1` is `0xF7`; then the ring it leaves is the ring that call
leaves; in every other case no call is made and the ring is unchanged.
Without `ENABLE_SYSEX` the handler does nothing. -/
theorem sysex_validation (dev : WinMMEMidiInputDevice) (midi_header : MIDIHDR)
    (timestamp now : Nat) :
    ((handle_sysex_msg true dev midi_header timestamp now).enqueue_calls =
        dev.enqueue_calls ++ [(midi_header.lpData, midi_header.dwBytesRecorded)] ↔
      sysex_well_formed midi_header) ∧
    (sysex_well_formed midi_header →
      (handle_sysex_msg true dev midi_header timestamp now).m_midi_buffer =
        (enqueue_midi_msg dev.m_midi_buffer midi_header.lpData midi_header.dwBytesRecorded
          timestamp now).rb) ∧
    (¬ sysex_well_formed midi_header →
      (handle_sysex_msg true dev midi_header timestamp now).enqueue_calls =
          dev.enqueue_calls ∧
        (handle_sysex_msg true dev midi_header timestamp now).m_midi_buffer =
          dev.m_midi_buffer) ∧
    handle_sysex_msg false dev midi_header timestamp now = dev := by
  have hgood : sysex_well_formed midi_header →
      handle_sysex_msg true dev midi_header timestamp now =
        ⟨(enqueue_midi_msg dev.m_midi_buffer midi_header.lpData midi_header.dwBytesRecorded
          timestamp now).rb, dev.add_buffer_calls + 1,
          dev.enqueue_calls ++ [(midi_header.lpData, midi_header.dwBytesRecorded)]⟩ := by
    rintro ⟨n1, n2, n3⟩
    simp only [handle_sysex_msg, if_true]
    rw [if_neg (by omega), if_neg (by rw [n2, n3]; simp)]
  have hbad : ¬ sysex_well_formed midi_header →
      (handle_sysex_msg true dev midi_header timestamp now).enqueue_calls =
          dev.enqueue_calls ∧
        (handle_sysex_msg true dev midi_header timestamp now).m_midi_buffer =
          dev.m_midi_buffer := by
    intro hb
    unfold sysex_well_formed at hb
    simp only [handle_sysex_msg, if_true]
    by_cases h0 : midi_header.dwBytesRecorded = 0
    · rw [if_pos h0]; exact ⟨rfl, rfl⟩
    · rw [if_neg h0, if_pos (by
        by_contra hcon
        exact hb ⟨by omega, by_contra fun h1 => hcon (Or.inl h1),
          by_contra fun h2 => hcon (Or.inr h2)⟩)]
      exact ⟨rfl, rfl⟩
  refine ⟨⟨?_, fun h => by rw [hgood h]⟩, fun h => by rw [hgood h], hbad, by
    simp [handle_sysex_msg]⟩
  intro h
  by_contra hn
  rw [(hbad hn).1] at h
  simp at h

/-- C11, the claim as stated fails. The function returns a `bool`. On the same
arguments a call on an empty ring (not found), a call that defers a future
event (not found) and a call that skips an event of five bytes as too large
for a capacity of 3 leave the same return value `false` and the same outputs;
so does, against the empty ring, a call that meets a framing error. After
the framing error nothing marks the device as unusable: an event enqueued
next is returned by the next call. -/
theorem dequeue_outcomes_indistinguishable :
    ((dequeue_midi_event (RingBuffer.create 64) 0 5000 7 [1, 2, 3] 3).path = .queue_empty ∧
      (dequeue_midi_event (note_ring 6000) 0 5000 7 [1, 2, 3] 3).path = .early ∧
      (dequeue_midi_event two_event_ring 0 5000 7 [1, 2, 3] 3).path = .too_large ∧
      (dequeue_midi_event garbled_ring 0 5000 7 [0x90, 60, 3, 4, 5] 5).path = .garbled) ∧
    ((dequeue_midi_event (RingBuffer.create 64) 0 5000 7 [1, 2, 3] 3).ret = false ∧
      (dequeue_midi_event (note_ring 6000) 0 5000 7 [1, 2, 3] 3).ret = false ∧
      (dequeue_midi_event two_event_ring 0 5000 7 [1, 2, 3] 3).ret = false ∧
      (dequeue_midi_event garbled_ring 0 5000 7 [0x90, 60, 3, 4, 5] 5).ret = false) ∧
    ((dequeue_midi_event (RingBuffer.create 64) 0 5000 7 [1, 2, 3] 3).timestamp = 7 ∧
      (dequeue_midi_event (note_ring 6000) 0 5000 7 [1, 2, 3] 3).timestamp = 7 ∧
      (dequeue_midi_event two_event_ring 0 5000 7 [1, 2, 3] 3).timestamp = 7 ∧
      (dequeue_midi_event garbled_ring 0 5000 7 [0x90, 60, 3, 4, 5] 5).timestamp = 7) ∧
    ((dequeue_midi_event (RingBuffer.create 64) 0 5000 7 [1, 2, 3] 3).data_size = 3 ∧
      (dequeue_midi_event (note_ring 6000) 0 5000 7 [1, 2, 3] 3).data_size = 3 ∧
      (dequeue_midi_event two_event_ring 0 5000 7 [1, 2, 3] 3).data_size = 3) ∧
    ((dequeue_midi_event (RingBuffer.create 64) 0 5000 7 [1, 2, 3] 3).midi_data = [1, 2, 3] ∧
      (dequeue_midi_event (note_ring 6000) 0 5000 7 [1, 2, 3] 3).midi_data = [1, 2, 3] ∧
      (dequeue_midi_event two_event_ring 0 5000 7 [1, 2, 3] 3).midi_data = [1, 2, 3]) ∧
    ((dequeue_midi_event (RingBuffer.create 64) 0 5000 7 [0x90, 60, 3, 4, 5] 5).data_size =
        (dequeue_midi_event garbled_ring 0 5000 7 [0x90, 60, 3, 4, 5] 5).data_size ∧
      (dequeue_midi_event (RingBuffer.create 64) 0 5000 7 [0x90, 60, 3, 4, 5] 5).midi_data =
        (dequeue_midi_event garbled_ring 0 5000 7 [0x90, 60, 3, 4, 5] 5).midi_data) ∧
    (dequeue_midi_event
      (enqueue_midi_msg (dequeue_midi_event garbled_ring 0 5000 7 [0x90, 60, 3, 4, 5] 5).rb
        [0x80, 60, 0] 3 0 2000).rb
      0 5000 7 [0, 0, 0, 0, 0] 5).ret = true := by
  decide

/-- C11 as amended (outcome reporting). The result of `dequeue_midi_event` is
one `bool`: it is `true` exactly when an event is delivered; for every other
outcome (queue empty, event of a future window, event too large, framing
error) it is `false` and the caller's `timestamp` and `data_size` are left as
passed in, and in the first three the caller's buffer is left as well, so the
result does not tell these outcomes apart. A framing error leaves no mark on
the device: on a well-formed ring it leaves nothing unread, and the next call
is an ordinary call on that ring, which returns `false` by the first exit. -/
theorem dequeue_reports_found_or_not (rb : RingBuffer) (hwf : rb.WF)
    (timestamp_start timestamp_end timestamp : Nat) (midi_data : List Nat) (data_size : Nat)
    (next : DequeueCall) :
    ((dequeue_midi_event rb timestamp_start timestamp_end timestamp midi_data data_size).ret
        = true ↔
      (dequeue_midi_event rb timestamp_start timestamp_end timestamp midi_data data_size).path
        = .found) ∧
    ((dequeue_midi_event rb timestamp_start timestamp_end timestamp midi_data data_size).ret
        = false →
      (dequeue_midi_event rb timestamp_start timestamp_end timestamp midi_data
          data_size).timestamp = timestamp ∧
      (dequeue_midi_event rb timestamp_start timestamp_end timestamp midi_data
          data_size).data_size = data_size) ∧
    ((dequeue_midi_event rb timestamp_start timestamp_end timestamp midi_data data_size).path
        ≠ .found →
      (dequeue_midi_event rb timestamp_start timestamp_end timestamp midi_data data_size).path
        ≠ .garbled →
      (dequeue_midi_event rb timestamp_start timestamp_end timestamp midi_data
          data_size).midi_data = midi_data) ∧
    ((dequeue_midi_event rb timestamp_start timestamp_end timestamp midi_data data_size).path
        = .garbled →
      (dequeue_midi_event rb timestamp_start timestamp_end timestamp midi_data
          data_size).rb.read_space = 0 ∧
      next.apply (dequeue_midi_event rb timestamp_start timestamp_end timestamp midi_data
          data_size).rb =
        ⟨false, (dequeue_midi_event rb timestamp_start timestamp_end timestamp midi_data
          data_size).rb, next.timestamp, next.midi_data, next.data_size, .queue_empty, true,
          false⟩) := by
  obtain ⟨a1, a2, a3⟩ := dequeue_ret_iff_found rb timestamp_start timestamp_end timestamp
    midi_data data_size
  refine ⟨a1, a2, a3, fun hp => ?_⟩
  have hz := dequeue_garbled_drains rb hwf timestamp_start timestamp_end timestamp midi_data
    data_size hp
  refine ⟨hz, ?_⟩
  apply dequeue_queue_empty
  rw [hz]
  exact Nat.zero_le _

/-- Witness of C11 as amended: on the out-of-frame ring a call with capacity 5
meets the framing error, returns `false` with `timestamp` left at 7, and
leaves nothing unread. -/
theorem dequeue_reports_found_or_not_witness :
    garbled_ring.WF ∧
    (dequeue_midi_event garbled_ring 0 5000 7 [1, 2, 3, 4, 5] 5).path = .garbled ∧
    (dequeue_midi_event garbled_ring 0 5000 7 [1, 2, 3, 4, 5] 5).timestamp = 7 ∧
    (dequeue_midi_event garbled_ring 0 5000 7 [1, 2, 3, 4, 5] 5).rb.read_space = 0 :=
  ⟨by decide, by decide,
    ((dequeue_reports_found_or_not garbled_ring (by decide) 0 5000 7 [1, 2, 3, 4, 5] 5
      ⟨0, 5000, 7, [1, 2, 3, 4, 5], 5⟩).2.1 (by decide)).1,
    ((dequeue_reports_found_or_not garbled_ring (by decide) 0 5000 7 [1, 2, 3, 4, 5] 5
      ⟨0, 5000, 7, [1, 2, 3, 4, 5], 5⟩).2.2.2 (by decide)).1⟩

/-- C13 (no torn read between the two writes of enqueue). Let a well-formed
ring hold only whole events and have room for a header, and take the state
between the two writes of `enqueue_midi_msg`, the header written and the
payload not (when the call is not rejected, its result is this state with
the payload written). After any sequence of calls of `dequeue_midi_event`,
whatever their windows and capacities, the unread bytes are the frames of
some of the earlier events followed by all the bytes of the new header, and
the bytes of the array and the write cursor are as the header write left
them. Once the earlier events are drained, `read_space` equals
`sizeof(MidiEventHeader)` and every call returns `false` by the first exit
and leaves the ring, so the read cursor, unchanged. -/
theorem no_torn_read_between_writes (rb : RingBuffer) (hwf : rb.WF)
    (evs : List MidiEvent) (hv : ∀ e ∈ evs, e.valid) (hc : rb.contents = frames evs)
    (midi_data : List Nat) (data_size timestamp now : Nat)
    (hfit : sizeof_MidiEventHeader ≤ rb.write_space)
    (cs : List DequeueCall) (c : DequeueCall) :
    ((data_size ≠ 0 ∧ ¬ rb.write_space < total_size data_size) →
      enqueue_midi_msg rb midi_data data_size timestamp now =
        ⟨true, ((enqueue_header_written rb data_size now).write midi_data data_size).1⟩) ∧
    (dequeue_ring (enqueue_header_written rb data_size now) cs).buf =
      (enqueue_header_written rb data_size now).buf ∧
    (dequeue_ring (enqueue_header_written rb data_size now) cs).write_idx =
      (enqueue_header_written rb data_size now).write_idx ∧
    ∃ gone left, evs = gone ++ left ∧
      (dequeue_ring (enqueue_header_written rb data_size now) cs).contents =
        frames left ++ header_bytes (MidiEventHeader.ctor now data_size) ∧
      (left = [] →
        (dequeue_ring (enqueue_header_written rb data_size now) cs).read_space =
          sizeof_MidiEventHeader ∧
        c.apply (dequeue_ring (enqueue_header_written rb data_size now) cs) =
          ⟨false, dequeue_ring (enqueue_header_written rb data_size now) cs, c.timestamp,
            c.midi_data, c.data_size, .queue_empty, true, false⟩) := by
  have hl := header_bytes_length (MidiEventHeader.ctor now data_size)
  obtain ⟨m1, m2, _⟩ := enqueue_header_written_spec rb hwf data_size now hfit
  rw [hc] at m2
  obtain ⟨d1, d2, d3, gone, left, d4, d5⟩ := dequeue_ring_keeps_lone_header cs
    (enqueue_header_written rb data_size now) m1 evs hv _ hl m2
  refine ⟨fun h => enqueue_two_writes rb midi_data data_size timestamp now h.1 h.2, d3, d2,
    gone, left, d4, d5, ?_⟩
  intro hleft
  subst hleft
  constructor
  · rw [← RingBuffer.contents_length, d5]
    simpa [frames] using hl
  · exact (dequeue_keeps_lone_header _ d1 [] (by simp) _ hl d5 c).2.2.2.2 rfl

/-- Witness of C13: a ring holds one Note-On stamped 1000 when the header of a
second event is written at clock value 2000; after two calls that could take
anything stamped below 5000 the first event is gone, the twelve bytes of the
new header are all that is unread, and the write cursor is where the header
write left it. -/
theorem no_torn_read_between_writes_witness :
    (note_ring 1000).WF ∧
    (note_ring 1000).contents = frames [⟨1000, [0x90, 60, 100]⟩] ∧
    sizeof_MidiEventHeader ≤ (note_ring 1000).write_space ∧
    (dequeue_ring (enqueue_header_written (note_ring 1000) 3 2000)
        [⟨0, 5000, 7, [0, 0, 0], 3⟩, ⟨0, 5000, 7, [0, 0, 0], 3⟩]).write_idx =
      (enqueue_header_written (note_ring 1000) 3 2000).write_idx ∧
    (dequeue_ring (enqueue_header_written (note_ring 1000) 3 2000)
        [⟨0, 5000, 7, [0, 0, 0], 3⟩, ⟨0, 5000, 7, [0, 0, 0], 3⟩]).contents =
      header_bytes ⟨2000, 3⟩ :=
  ⟨by decide, by decide, by decide,
    (no_torn_read_between_writes (note_ring 1000) (by decide) [⟨1000, [0x90, 60, 100]⟩]
      (by decide) (by decide) [0x80, 60, 0] 3 0 2000 (by decide)
      [⟨0, 5000, 7, [0, 0, 0], 3⟩, ⟨0, 5000, 7, [0, 0, 0], 3⟩]
      ⟨0, 5000, 7, [0, 0, 0], 3⟩).2.2.1,
    by decide⟩

/-- C15 (caller-buffer safety). For every ring state and every capacity passed
in `data_size`: the call either leaves `midi_data` as it was, or the size in
the peeked header is at most the capacity and the call has overwritten the
start of `midi_data` with at most that many bytes; in both cases the buffer
beyond the capacity is untouched. When the call returns `true`, the output
`data_size` is the size in the peeked header and is at most the capacity.
When it returns `false`, `timestamp` and `data_size` are as passed in. -/
theorem dequeue_buffer_safety (rb : RingBuffer)
    (timestamp_start timestamp_end timestamp : Nat) (midi_data : List Nat) (data_size : Nat) :
    ((dequeue_midi_event rb timestamp_start timestamp_end timestamp midi_data
          data_size).midi_data = midi_data ∨
      ((peek_header rb).size ≤ data_size ∧
        ∃ bytes : List Nat, bytes.length ≤ (peek_header rb).size ∧
          (dequeue_midi_event rb timestamp_start timestamp_end timestamp midi_data
            data_size).midi_data = bytes ++ midi_data.drop bytes.length)) ∧
    (dequeue_midi_event rb timestamp_start timestamp_end timestamp midi_data
        data_size).midi_data.drop data_size = midi_data.drop data_size ∧
    ((dequeue_midi_event rb timestamp_start timestamp_end timestamp midi_data data_size).ret
        = true →
      (dequeue_midi_event rb timestamp_start timestamp_end timestamp midi_data
          data_size).data_size = (peek_header rb).size ∧
      (dequeue_midi_event rb timestamp_start timestamp_end timestamp midi_data
          data_size).data_size ≤ data_size) ∧
    ((dequeue_midi_event rb timestamp_start timestamp_end timestamp midi_data data_size).ret
        = false →
      (dequeue_midi_event rb timestamp_start timestamp_end timestamp midi_data
          data_size).timestamp = timestamp ∧
      (dequeue_midi_event rb timestamp_start timestamp_end timestamp midi_data
          data_size).data_size = data_size) := by
  have hcopy : ∀ n : Nat, n ≤ data_size →
      (memcpy_at midi_data 0 ((rb.increment_read_idx sizeof_MidiEventHeader).read n).2
        ((rb.increment_read_idx sizeof_MidiEventHeader).read n).2.length =
        ((rb.increment_read_idx sizeof_MidiEventHeader).read n).2 ++
          midi_data.drop ((rb.increment_read_idx sizeof_MidiEventHeader).read n).2.length) ∧
      ((rb.increment_read_idx sizeof_MidiEventHeader).read n).2.length ≤ n ∧
      (memcpy_at midi_data 0 ((rb.increment_read_idx sizeof_MidiEventHeader).read n).2
        ((rb.increment_read_idx sizeof_MidiEventHeader).read n).2.length).drop data_size =
        midi_data.drop data_size := by
    intro n hn
    have hlen : ((rb.increment_read_idx sizeof_MidiEventHeader).read n).2.length ≤ n := by
      simp only [RingBuffer.read, RingBuffer.peek_length]
      exact Nat.min_le_left _ _
    have e : memcpy_at midi_data 0 ((rb.increment_read_idx sizeof_MidiEventHeader).read n).2
        ((rb.increment_read_idx sizeof_MidiEventHeader).read n).2.length =
        ((rb.increment_read_idx sizeof_MidiEventHeader).read n).2 ++
          midi_data.drop ((rb.increment_read_idx sizeof_MidiEventHeader).read n).2.length := by
      simp [memcpy_at]
    refine ⟨e, hlen, ?_⟩
    rw [e, List.drop_append_eq_append_drop, List.drop_of_length_le (by omega), List.nil_append,
      List.drop_drop]
    congr 1
    omega
  simp only [dequeue_midi_event, peek_header]
  split_ifs with h1 h2 h3 h4
  · simp
  · simp
  · simp
  · obtain ⟨e, hlen, hd⟩ := hcopy (header_from_vector rb.get_read_vector).size (by omega)
    refine ⟨Or.inr ⟨by omega, _, hlen, e⟩, hd, by simp, by simp⟩
  · obtain ⟨e, hlen, hd⟩ := hcopy (header_from_vector rb.get_read_vector).size (by omega)
    refine ⟨Or.inr ⟨by omega, _, hlen, e⟩, hd, fun _ => ⟨rfl, show (header_from_vector rb.get_read_vector).size ≤ data_size by omega⟩, by simp⟩

end ARDOUR
